import Mathlib

set_option maxHeartbeats 1000000

namespace Umeshu

/-! Shallow embedding of the umeshu HTTP router core.

Go strings are modelled as lists of characters (`Str`); Go maps whose
observable behaviour is key lookup are modelled as association lists with
insert-or-replace update; Go `log.Panic` (which raises a Go panic via
`panicf`) is modelled by returning `none` from the operation, so a failed
registration produces no tree at all, mirroring the fact that the panic
unwinds before any mutation is committed. -/

abbrev Str := List Char

/-- Character test for the wildcard marker: Go `part[0] == '*'` /
`strings.HasPrefix(s, "*")` (false on the empty string). -/
def starHead : Str → Bool
  | [] => false
  | c :: _ => c == '*'

/-- Character test for the parameter marker: Go `part[0] == ':'`. -/
def colonHead : Str → Bool
  | [] => false
  | c :: _ => c == ':'

/-- Go `strings.Split(s, sep)` for a one-character separator: always returns
at least one (possibly empty) piece. -/
def splitOnChar (sep : Char) : Str → List Str
  | [] => [[]]
  | c :: cs =>
    if c == sep then [] :: splitOnChar sep cs
    else
      match splitOnChar sep cs with
      | [] => [[c]]
      | p :: ps => (c :: p) :: ps

/-- Loop body of `parsePattern` (utils.go): keep the non-empty pieces and
stop right after the first piece that begins with `*` (only one wildcard is
allowed). -/
def collectParts : List Str → List Str
  | [] => []
  | [] :: rest => collectParts rest
  | (c :: cs) :: rest =>
    if c == '*' then [c :: cs]
    else (c :: cs) :: collectParts rest

/-- `parsePattern` (utils.go): split a path on `/`, drop empty segments,
truncate after a wildcard segment. -/
def parsePattern (pattern : Str) : List Str :=
  collectParts (splitOnChar '/' pattern)

/-- Go `strings.Join(parts, "/")`. -/
def joinSlash : List Str → Str
  | [] => []
  | [s] => s
  | s :: rest => s ++ '/' :: joinSlash rest

/-- The canonical path stored for a sequence of segments:
`"/" + strings.Join(segs, "/")`. -/
def renderPath (segs : List Str) : Str := '/' :: joinSlash segs

/-! ## The radix tree (container package, part_002) -/

inductive RadixNode : Type where
  | node (pattern : Str) (path : Str) (isParam : Bool) (isAny : Bool)
      (children : List RadixNode) (hasParamChild : Bool) (hasAnyChild : Bool)

def RadixNode.pattern : RadixNode → Str
  | .node p _ _ _ _ _ _ => p

def RadixNode.path : RadixNode → Str
  | .node _ p _ _ _ _ _ => p

def RadixNode.isParam : RadixNode → Bool
  | .node _ _ b _ _ _ _ => b

def RadixNode.isAny : RadixNode → Bool
  | .node _ _ _ b _ _ _ => b

def RadixNode.children : RadixNode → List RadixNode
  | .node _ _ _ _ cs _ _ => cs

def RadixNode.hasParamChild : RadixNode → Bool
  | .node _ _ _ _ _ b _ => b

def RadixNode.hasAnyChild : RadixNode → Bool
  | .node _ _ _ _ _ _ b => b

/-- Functional update of a node: same pattern/path/isParam/isAny, new
children and child flags (models Go's in-place mutation of those fields). -/
def RadixNode.withKids : RadixNode → List RadixNode → Bool → Bool → RadixNode
  | .node pat pth ip ia _ _ _, cs, hp, ha => .node pat pth ip ia cs hp ha

/-- `NewRootNode`: a node with path `"/"` and everything else empty. -/
def newRootNode : RadixNode := .node [] ['/'] false false [] false false

/-- `matchChildren`: all children that qualify for the given concrete
segment (literal equality, param child, wildcard child, or the segment
itself begins with `*`). -/
def RadixNode.matchChildren (n : RadixNode) (part : Str) : List RadixNode :=
  n.children.filter
    (fun child => child.pattern == part || child.isParam || child.isAny || starHead part)

/-- `matchChild`: the first child whose registered pattern equals the
segment literally. -/
def RadixNode.matchChild (n : RadixNode) (part : Str) : Option RadixNode :=
  n.children.find? (fun child => child.pattern == part)

/-- `findChild` (lookup). The Go code carries the full segment list plus a
height index; here the remaining suffix plays the role of
`parts[height:]`, so `height == len(parts)` becomes "suffix is empty".
The loop over `matchChildren` returns on its first iteration, so only the
first qualifying child is ever descended into. -/
def RadixNode.findChild : RadixNode → List Str → Option RadixNode
  | n, [] => some n
  | n, part :: rest =>
    if starHead n.pattern then some n
    else
      match n.matchChildren part with
      | [] => none
      | c :: _ => c.findChild rest

/-- `Find`. -/
def RadixNode.find (n : RadixNode) (parts : List Str) : Option RadixNode :=
  n.findChild parts

/-- Replace the first child whose pattern equals `part` (models Go's
in-place mutation of the node found by `matchChild`). -/
def replaceChild (part : Str) (c' : RadixNode) : List RadixNode → List RadixNode
  | [] => []
  | c :: cs => if c.pattern == part then c' :: cs else c :: replaceChild part c' cs

/-- `insertChild` (registration). `done` is the list of segments already
consumed (`parts[:height]`), `rest` the remaining ones, so the stored path
`"/" + Join(parts[:height+1], "/")` is `renderPath (done ++ [part])`.
`none` models `log.Panic` (which panics before any mutation happens). -/
def RadixNode.insertChild : RadixNode → List Str → List Str → Option RadixNode
  | n, _, [] => some n
  | n, done, part :: rest =>
    match n.matchChild part with
    | some c =>
      (RadixNode.insertChild c (done ++ [part]) rest).map
        (fun c' => n.withKids (replaceChild part c' n.children) n.hasParamChild n.hasAnyChild)
    | none =>
      if !starHead part && n.hasAnyChild then none
      else if colonHead part && n.hasParamChild then none
      else
        let child : RadixNode :=
          .node part (renderPath (done ++ [part])) (colonHead part) (starHead part) [] false false
        (RadixNode.insertChild child (done ++ [part]) rest).map (fun child' =>
          if colonHead part then
            n.withKids (n.children ++ [child']) true n.hasAnyChild
          else if starHead part then
            if !n.children.isEmpty then
              if n.hasAnyChild then n.withKids (n.children.set 0 child') n.hasParamChild true
              else n.withKids [child'] n.hasParamChild true
            else n.withKids (n.children ++ [child']) n.hasParamChild true
          else
            n.withKids (child' :: n.children) n.hasParamChild n.hasAnyChild)

/-- `Insert`. -/
def RadixNode.insert (n : RadixNode) (parts : List Str) : Option RadixNode :=
  n.insertChild [] parts

/-! ## The router (umeshu package, part_004) -/

/-- Key lookup in a Go map modelled as an association list. -/
def lookupA {β : Type} (k : Str) (l : List (Str × β)) : Option β :=
  (l.find? (fun kv => kv.1 == k)).map (fun kv => kv.2)

/-- Insert-or-replace in a Go map modelled as an association list. -/
def updateA {β : Type} (k : Str) (v : β) : List (Str × β) → List (Str × β)
  | [] => [(k, v)]
  | (k', v') :: rest => if k' == k then (k, v) :: rest else (k', v') :: updateA k v rest

/-- The key under which a route's handler chain is stored:
`method + "-" + pattern`. -/
def routeKey (method pattern : Str) : Str := method ++ '-' :: pattern

/-- `routerNode.Find`: parse the concrete path and return the stored path of
the matched node, or the empty string on a miss. -/
def nodeFind (root : RadixNode) (path : Str) : Str :=
  match root.find (parsePattern path) with
  | some n => n.path
  | none => []

/-- `routerNode.Insert`. -/
def nodeInsert (root : RadixNode) (pattern : Str) : Option RadixNode :=
  root.insert (parsePattern pattern)

/-- `matchParams` body: walk the registered template's segments in lockstep
with the concrete path's segments (`url.headD []` stands for `url[i]`,
`url` itself for `url[i:]`), binding `:name` to the token and a named
`*name` to the joined remaining suffix, with Go-map overwrite semantics. -/
def matchParamsAux : List Str → List Str → List (Str × Str) → List (Str × Str)
  | [], _, params => params
  | reg :: regs, url, params =>
    let params1 := if colonHead reg then updateA (reg.drop 1) (url.headD []) params else params
    let params2 :=
      if starHead reg && decide (1 < reg.length) then updateA (reg.drop 1) (joinSlash url) params1
      else params1
    matchParamsAux regs (url.drop 1) params2

/-- `matchParams` (part_004). -/
def matchParams (registered url : List Str) : List (Str × Str) :=
  matchParamsAux registered url []

/-- The `router` struct: one tree per HTTP method plus the
`method + "-" + pattern ↦ handler chain` map, polymorphic in the type of
handlers. -/
structure RouterT (α : Type) where
  trees : List (Str × RadixNode)
  handlers : List (Str × List α)

def emptyRouter (α : Type) : RouterT α := ⟨[], []⟩

/-- `router.addRoute`: create the method tree if absent, insert the parsed
pattern, and store the handler chain; `none` when the insertion panics. -/
def addRoute {α : Type} (r : RouterT α) (method pattern : Str) (hs : List α) :
    Option (RouterT α) :=
  let root := match lookupA method r.trees with
    | some t => t
    | none => newRootNode
  (nodeInsert root pattern).map (fun root' =>
    { trees := updateA method root' r.trees,
      handlers := updateA (routeKey method pattern) hs r.handlers })

/-- `router.getRoute`: on a hit, the matched node's stored path plus the
extracted parameters; on an unknown method or an empty `Find` result, the
explicit not-found pair `("", nil)`. -/
def getRoute {α : Type} (r : RouterT α) (method path : Str) :
    Str × Option (List (Str × Str)) :=
  match lookupA method r.trees with
  | none => ([], none)
  | some root =>
    let reg := nodeFind root path
    if reg.isEmpty then ([], none)
    else (reg, some (matchParams (parsePattern reg) (parsePattern path)))

/-- `router.applyMiddlewares`: prepend the middleware list to the stored
chain of the route, when that route's key is present. -/
def applyMiddlewares {α : Type} (r : RouterT α) (method path : Str) (middlewares : List α) :
    RouterT α :=
  match lookupA (routeKey method path) r.handlers with
  | some old =>
    { r with handlers := updateA (routeKey method path) (middlewares ++ old) r.handlers }
  | none => r

/-- `router.allRoutes` recovers a (method, pattern) pair from a stored key
by splitting it on every `-` and taking the first and last pieces. -/
def routeInfoOf (k : Str) : Str × Str :=
  let parts := splitOnChar '-' k
  (parts.headD [], parts.getLastD [])

def allRoutes {α : Type} (r : RouterT α) : List (Str × Str) :=
  r.handlers.map (fun kv => routeInfoOf kv.1)

/-! ## The engine's middleware application (part_005) -/

/-- The engine as far as middleware application is concerned: its router
groups, each a base path plus attached middleware list, in creation
order. -/
structure EngineT (α : Type) where
  groups : List (Str × List α)

/-- The middleware chain `Engine.applyMiddleware` builds for a route:
middlewares of every group whose base path is a string prefix of the
route's path, concatenated in group order. -/
def chainFor {α : Type} (e : EngineT α) (path : Str) : List α :=
  ((e.groups.filter (fun g => g.1.isPrefixOf path)).map (fun g => g.2)).flatten

/-- `Engine.applyMiddleware` for one route. -/
def applyMiddlewareE {α : Type} (e : EngineT α) (r : RouterT α) (method path : Str) :
    RouterT α :=
  applyMiddlewares r method path (chainFor e path)

/-- `Engine.ApplyMiddleware`: snapshot `allRoutes`, then apply per route. -/
def applyMiddlewareAll {α : Type} (e : EngineT α) (r : RouterT α) : RouterT α :=
  (allRoutes r).foldl (fun acc ro => applyMiddlewareE e acc ro.1 ro.2) r

/-- Registration of a whole list of (method, pattern, handlers) routes. -/
def buildRouter {α : Type} (routes : List (Str × Str × List α)) : Option (RouterT α) :=
  routes.foldlM (fun r x => addRoute r x.1 x.2.1 x.2.2) (emptyRouter α)

/-! ## The request context and handler-chain execution (context.go)

Handlers are deep-embedded as lists of primitive actions: emit an
observable message, call `c.Next()`, call `c.Exit(h)`, or call
`c.Fail(code, msg)`. The `trace` field records the observable execution
order; it is not a field of the Go struct. -/

inductive Action : Type where
  | log (msg : Str)
  | callNext
  | callExit (h : List Action)
  | fail (code : Nat) (msg : Str)

abbrev HandlerA := List Action

/-- The `Context` struct: response writer and request modelled as presence
booleans, the session as a presence boolean, route parameters as the
optional map (`none` is Go's nil map). -/
structure Ctx where
  hasResponseWriter : Bool
  hasRequest : Bool
  handlers : List HandlerA
  index : Nat
  hasSession : Bool
  pathC : Str
  methodC : Str
  routeParams : Option (List (Str × Str))
  statusCode : Nat
  trace : List Str

/-- The zero `Context` that `new(Context)` (the pool's `New`) produces. -/
def zeroCtx : Ctx :=
  { hasResponseWriter := false, hasRequest := false, handlers := [], index := 0,
    hasSession := false, pathC := [], methodC := [], routeParams := none,
    statusCode := 0, trace := [] }

/-- `Context.Free`: every Go field is reset to its zero value (the trace is
an observation artifact of the model and is carried through unchanged). -/
def Ctx.free (c : Ctx) : Ctx :=
  { zeroCtx with trace := c.trace }

mutual
/-- Run the body of one handler, action by action. Fuel only bounds the
recursion depth; every claim instantiates it large enough that it is never
exhausted. -/
def runActions : Nat → List Action → Ctx → Option Ctx
  | 0, _, _ => none
  | _ + 1, [], c => some c
  | fuel + 1, a :: rest, c =>
    match a with
    | .log m => runActions fuel rest { c with trace := c.trace ++ [m] }
    | .callNext =>
      match runNext fuel c with
      | none => none
      | some c' => runActions fuel rest c'
    | .callExit h =>
      match runExit fuel h c with
      | none => none
      | some c' => runActions fuel rest c'
    | .fail code msg =>
      runActions fuel rest { c with statusCode := code, trace := c.trace ++ [msg] }

/-- `Context.Next`: `c.index++`, then the while loop. -/
def runNext : Nat → Ctx → Option Ctx
  | 0, _ => none
  | fuel + 1, c => nextLoop fuel { c with index := c.index + 1 }

/-- The loop of `Context.Next`: while `c.index <= len(c.handlers)`, invoke
`c.handlers[c.index-1]` and increment; the bound is re-read on every
iteration, so handlers appended mid-flight extend the loop. -/
def nextLoop : Nat → Ctx → Option Ctx
  | 0, _ => none
  | fuel + 1, c =>
    if c.index ≤ c.handlers.length then
      match c.handlers.get? (c.index - 1) with
      | none => none
      | some h =>
        match runActions fuel h c with
        | none => none
        | some c' => nextLoop fuel { c' with index := c'.index + 1 }
    else some c

/-- `Context.Exit`: append the exit handler to the chain and invoke it
immediately; the cursor `c.index` is NOT modified. -/
def runExit : Nat → HandlerA → Ctx → Option Ctx
  | 0, _, _ => none
  | fuel + 1, h, c =>
    let c1 := { c with handlers := c.handlers ++ [h] }
    runActions fuel h c1
end

/-- `HTTP404Handler`: `c.Fail(404, "404 NOT FOUND: ...")`. -/
def http404Handler : HandlerA := [.fail 404 (("404 NOT FOUND").toList)]

/-- `router.handle`: resolve the route; on a hit bind the stored chain and
the parameters, on a miss append the 404 handler; then `c.Next()`. -/
def handle (fuel : Nat) (r : RouterT HandlerA) (c : Ctx) : Option Ctx :=
  let res := getRoute r c.methodC c.pathC
  let c' :=
    if !res.1.isEmpty then
      { c with handlers := (lookupA (routeKey c.methodC res.1) r.handlers).getD [],
               routeParams := res.2 }
    else { c with handlers := c.handlers ++ [http404Handler] }
  runNext fuel c'

/-- `Engine.ServeHTTP`: `NewContext` takes a context from the pool (always
the zero context, since nothing ever returns one) and `Init` sets the
response writer, request, method and path; then `router.handle` runs.
No `Free` call follows, mirroring the source. -/
def serveHTTP (fuel : Nat) (r : RouterT HandlerA) (method path : Str) : Option Ctx :=
  let c := { zeroCtx with hasResponseWriter := true, hasRequest := true,
                          methodC := method, pathC := path }
  handle fuel r c

/-! ## Specification-side definitions

These are written from the spec's wording, not from the code; the claim
theorems compare the code-derived definitions above against them. -/

/-- Structural match of a template's segment list against a concrete,
already-parsed segment list, as the spec describes it: a static segment
needs the identical token, a `:x` segment consumes exactly one token, and
a `*x` segment consumes the remaining tokens. The remaining suffix must be
non-empty: with no token left the lookup stops one level above the
wildcard node and never reaches the wildcard template at all, so a path
with an empty suffix is not a structural match of the wildcard template. -/
def structMatch : List Str → List Str → Bool
  | [], ps => ps.isEmpty
  | t :: ts, ps =>
    if starHead t then !ps.isEmpty
    else
      match ps with
      | [] => false
      | p :: ps' => (if colonHead t then true else t == p) && structMatch ts ps'

/-- Qualification of a child node for a concrete segment, as the spec's
lookup section words it: literal equal to the current segment, or a param
child, or a wildcard child, or the current segment begins with `*`. -/
def qualifiesFor (child : RadixNode) (part : Str) : Bool :=
  child.pattern == part || child.isParam || child.isAny || starHead part

/-- Claim-side description of parameter binding: walking the registered
template's segments in lockstep with the concrete path's segments, a
`:name` segment binds `name` to the corresponding concrete token, and a
named `*name` segment binds `name` to the remaining concrete suffix joined
with `/`. -/
inductive BindsAt : List Str → List Str → Str → Str → Prop where
  | paramHere {t : Str} {ts : List Str} {p : Str} {ps : List Str} {name : Str} :
      colonHead t = true → t.drop 1 = name → BindsAt (t :: ts) (p :: ps) name p
  | wildHere {t : Str} {ts : List Str} {ps : List Str} {name : Str} :
      starHead t = true → 1 < t.length → t.drop 1 = name →
      BindsAt (t :: ts) ps name (joinSlash ps)
  | there {t : Str} {ts : List Str} {p : Str} {ps : List Str} {name v : Str} :
      BindsAt ts ps name v → BindsAt (t :: ts) (p :: ps) name v

/-- The parameter names a template binds (`:x` segments and named `*x`
segments). -/
def paramNames : List Str → List Str
  | [] => []
  | t :: ts =>
    if colonHead t || (starHead t && decide (1 < t.length)) then t.drop 1 :: paramNames ts
    else paramNames ts

/-- Well-formedness of a parsed segment list as `parsePattern` produces it:
every segment non-empty and a wildcard segment only in final position. -/
def okSegs : List Str → Bool
  | [] => true
  | s :: rest => !s.isEmpty && (!starHead s || rest.isEmpty) && okSegs rest

/-- A node is a static child: neither a param node nor a wildcard node. -/
def StaticNode (c : RadixNode) : Prop := c.isParam = false ∧ c.isAny = false

/-- Ordering invariant of a child list: no static child ever follows a
non-static (param or wildcard) child, i.e. every static child precedes
every dynamic one. -/
def STB (l : List RadixNode) : Prop :=
  l.Pairwise (fun a b => StaticNode b → StaticNode a)

/-- Local invariant of a node: its child list satisfies the ordering
invariant, and once a wildcard child is present no static child remains. -/
def GoodNode (n : RadixNode) : Prop :=
  STB n.children ∧ (n.hasAnyChild = true → ∀ c ∈ n.children, ¬ StaticNode c)

/-- Reachability inside a trie (the nodes `Travel` would visit). -/
inductive Reach : RadixNode → RadixNode → Prop where
  | refl (n : RadixNode) : Reach n n
  | step {m c n : RadixNode} : c ∈ n.children → Reach m c → Reach m n

/-- Every node of the tree satisfies the local invariant. -/
def GoodTree (n : RadixNode) : Prop := ∀ m, Reach m n → GoodNode m

/-- Whether the first of the remaining segments is a param segment. -/
def headColon : List Str → Bool
  | [] => false
  | r :: _ => colonHead r

/-- Whether the first of the remaining segments is a wildcard segment. -/
def headStar : List Str → Bool
  | [] => false
  | r :: _ => starHead r

/-- The single-branch trie produced by inserting one parsed template into a
node with no children: segment `s` at consumed-prefix `done` becomes a node
with stored path `renderPath (done ++ [s])`, whose only child continues the
chain, and whose child flags describe the next segment. -/
def mkChain : List Str → List Str → List RadixNode
  | [], _ => []
  | s :: rest, done =>
    [.node s (renderPath (done ++ [s])) (colonHead s) (starHead s)
       (mkChain rest (done ++ [s])) (headColon rest) (headStar rest)]

/-- Concrete two-route fixture (a param and a static sibling at the root)
used to exercise the static-over-param rule. -/
def routerC3 : RouterT Nat :=
  (buildRouter ([((("GET").toList), ("/:id").toList, [1]),
    ((("GET").toList), ("/admin").toList, [2])] : List (Str × Str × List Nat))).getD
    (emptyRouter Nat)

/-- The GET tree of `routerC3`. -/
def rootC3 : RadixNode := (lookupA (("GET").toList) routerC3.trees).getD newRootNode

/-! ## Helper lemmas -/

theorem colonHead_star_false {s : Str} (h : colonHead s = true) : starHead s = false := by
  cases s with
  | nil => simp [colonHead] at h
  | cons c cs =>
    simp [colonHead] at h
    simp [starHead, h]

theorem starHead_colon_false {s : Str} (h : starHead s = true) : colonHead s = false := by
  cases s with
  | nil => simp [starHead] at h
  | cons c cs =>
    simp [starHead] at h
    simp [colonHead, h]

theorem lookupA_cons {β : Type} (k k' : Str) (v' : β) (l : List (Str × β)) :
    lookupA k ((k', v') :: l) = if k' == k then some v' else lookupA k l := by
  by_cases h : (k' == k) = true
  · simp [lookupA, List.find?_cons_of_pos, h]
  · simp only [Bool.not_eq_true] at h
    simp [lookupA, List.find?_cons_of_neg, h]

theorem lookupA_updateA_self {β : Type} (k : Str) (v : β) (l : List (Str × β)) :
    lookupA k (updateA k v l) = some v := by
  induction l with
  | nil => simp [updateA, lookupA_cons]
  | cons kv rest ih =>
    obtain ⟨k', v'⟩ := kv
    by_cases h : (k' == k) = true
    · simp [updateA, h, lookupA_cons]
    · simp only [Bool.not_eq_true] at h
      simp [updateA, h, lookupA_cons, ih]

theorem lookupA_updateA_ne {β : Type} {k k' : Str} (h : k' ≠ k) (v : β) (l : List (Str × β)) :
    lookupA k (updateA k' v l) = lookupA k l := by
  induction l with
  | nil => simp [updateA, lookupA_cons, h]
  | cons kv rest ih =>
    obtain ⟨k'', v''⟩ := kv
    by_cases h2 : (k'' == k') = true
    · have : k'' = k' := by simpa using h2
      subst this
      simp [updateA, lookupA_cons, h]
    · simp only [Bool.not_eq_true] at h2
      simp [updateA, h2, lookupA_cons, ih]

theorem updateA_mem {β : Type} {kv : Str × β} {k : Str} {v : β} :
    ∀ {l : List (Str × β)}, kv ∈ updateA k v l → kv ∈ l ∨ kv = (k, v) := by
  intro l
  induction l with
  | nil => intro h; simp [updateA] at h; right; exact h
  | cons kv' rest ih =>
    obtain ⟨k', v'⟩ := kv'
    intro h
    by_cases h2 : (k' == k) = true
    · simp [updateA, h2] at h
      rcases h with h | h
      · right; simpa using h
      · left; simp [h]
    · simp only [Bool.not_eq_true] at h2
      simp [updateA, h2] at h
      rcases h with h | h
      · left; simp [h]
      · rcases ih h with h3 | h3
        · left; simp [h3]
        · right; exact h3

theorem lookupA_mem_nodup {β : Type} :
    ∀ {l : List (Str × β)} {k : Str} {v : β},
      (l.map Prod.fst).Nodup → (k, v) ∈ l → lookupA k l = some v := by
  intro l
  induction l with
  | nil => intro k v _ hm; simp at hm
  | cons kv rest ih =>
    obtain ⟨k', v'⟩ := kv
    intro k v hn hm
    simp only [List.map_cons, List.nodup_cons] at hn
    rcases List.mem_cons.mp hm with h | h
    · obtain ⟨h1, h2⟩ := Prod.mk.injEq .. ▸ h
      subst h1; subst h2
      simp [lookupA_cons]
    · have hne : k' ≠ k := by
        intro he; subst he
        exact hn.1 (List.mem_map.mpr ⟨(k', v), h, rfl⟩)
      rw [lookupA_cons]
      simp [hne]
      exact ih hn.2 h

theorem head_filter_eq_find {p : RadixNode → Bool} :
    ∀ l : List RadixNode, (l.filter p).head? = l.find? p := by
  intro l
  induction l with
  | nil => rfl
  | cons a rest ih =>
    by_cases h : p a = true
    · simp [List.filter_cons, h, List.find?_cons_of_pos]
    · simp only [Bool.not_eq_true] at h
      simp [List.filter_cons, h, List.find?_cons_of_neg, ih]

theorem splitOnChar_no_sep {sep : Char} :
    ∀ {s : Str}, sep ∉ s → splitOnChar sep s = [s] := by
  intro s
  induction s with
  | nil => intro _; rfl
  | cons c cs ih =>
    intro h
    have hc : ¬(c == sep) = true := by
      simp only [beq_iff_eq]
      intro he; exact h (he ▸ List.mem_cons_self c cs)
    have hcs : sep ∉ cs := fun hm => h (List.mem_cons_of_mem _ hm)
    simp only [splitOnChar, ih hcs]
    simp [hc]

theorem splitOnChar_append_sep {sep : Char} :
    ∀ {m : Str}, sep ∉ m → ∀ p, splitOnChar sep (m ++ sep :: p) = m :: splitOnChar sep p := by
  intro m
  induction m with
  | nil =>
    intro _ p
    simp [splitOnChar]
  | cons c cs ih =>
    intro h p
    have hc : ¬(c == sep) = true := by
      simp only [beq_iff_eq]
      intro he; exact h (he ▸ List.mem_cons_self c cs)
    have hcs : sep ∉ cs := fun hm => h (List.mem_cons_of_mem _ hm)
    simp only [List.cons_append, splitOnChar, if_neg hc]
    simp only [List.append_eq]
    rw [ih hcs]

/-- Recovering (method, pattern) from a stored key is exact when neither
part contains a hyphen. -/
theorem routeInfo_routeKey {m p : Str} (hm : '-' ∉ m) (hp : '-' ∉ p) :
    routeInfoOf (routeKey m p) = (m, p) := by
  unfold routeInfoOf routeKey
  rw [splitOnChar_append_sep hm, splitOnChar_no_sep hp]
  rfl

/-! ## Claim theorems -/

/-- C6: the spec claims a three-handler chain in which the second handler
calls `Exit(fallback)` executes as [h1-pre, h2, fallback, h1-post] with h3
never invoked. The code disagrees: `Context.Exit` appends the fallback and
runs it but does not move the cursor past the end of the chain, so when
control unwinds into h1's `Next` loop the loop re-reads the (now longer)
chain and still runs h3 and then the fallback a second time. This theorem
evaluates the embedded `Next`/`Exit` semantics on exactly the claimed
chain and shows the actual order [h1-pre, h2, fallback, h3, fallback,
h1-post], contradicting both the claim and `Exit`'s own doc comment
("skips the remaining middlewares/handlers"). -/
theorem exit_short_circuit_actual_trace :
    (runNext 100
        { zeroCtx with handlers :=
            [[.log (("h1-pre").toList), .callNext, .log (("h1-post").toList)],
             [.log (("h2").toList), .callExit [.log (("fallback").toList)]],
             [.log (("h3").toList)]] }).map Ctx.trace
      = some [("h1-pre").toList, ("h2").toList, ("fallback").toList, ("h3").toList,
              ("fallback").toList, ("h1-post").toList] := by
  decide

/-- C9: `Context.Free` itself does reset every field of the context to its
zero value (first conjunct, ranging over all contexts), but the dispatch
path never invokes it: `Engine.ServeHTTP` creates the context and calls
`router.handle` with no `Free` afterwards, so the context at the end of a
completed request still carries the request's method, chain and cursor and
is never returned to the pool (second conjunct, evaluating the embedded
`ServeHTTP` on a one-route app). -/
theorem free_resets_fully_but_serve_never_frees :
    (∀ c : Ctx, (c.free).hasResponseWriter = false ∧ (c.free).hasRequest = false ∧
      (c.free).handlers = [] ∧ (c.free).index = 0 ∧ (c.free).hasSession = false ∧
      (c.free).methodC = [] ∧ (c.free).pathC = [] ∧ (c.free).routeParams = none ∧
      (c.free).statusCode = 0) ∧
    ((buildRouter [((("GET").toList), ("/").toList, [[Action.log (("Hi").toList)]])]).bind
        (fun r => serveHTTP 100 r (("GET").toList) (("/").toList))).map
        (fun c => (c.methodC, c.handlers.length, c.index, c.trace))
      = some ((("GET").toList), 1, 2, [("Hi").toList]) := by
  refine ⟨fun c => ⟨rfl, rfl, rfl, rfl, rfl, rfl, rfl, rfl, rfl⟩, by decide⟩

/-- C8 (amended): `getRoute` returns the explicit not-found pair
`("", nil)` exactly when the method has no tree or the trie walk returns no
node. It is not true that every path with no structurally-matching
registered template gets the not-found result: a path whose parsed
segments stop at an existing interior trie node (the bare root `/`, or a
proper prefix of a registered template) resolves to that node's stored
path even though no such template was registered — see the accompanying
counterexample theorem. -/
theorem getRoute_not_found_characterization {α : Type} (r : RouterT α) (method path : Str) :
    getRoute r method path = ([], none) ↔
      ∀ root, lookupA method r.trees = some root → nodeFind root path = [] := by
  unfold getRoute
  cases h : lookupA method r.trees with
  | none => simp
  | some root =>
    by_cases he : (nodeFind root path).isEmpty
    · simp only [he, if_true]
      constructor
      · intro _ root' hr'
        cases hr'
        exact List.isEmpty_iff.mp he
      · intro _; trivial
    · simp only [he, if_false]
      constructor
      · intro hcontra
        have := congrArg Prod.fst hcontra
        simp at this
        rw [this] at he
        simp at he
      · intro hall
        have := hall root rfl
        rw [this] at he
        simp at he

/-- C8 counterexample: with only `/a/b` registered, the bare root path `/`
matches no registered template structurally, yet `getRoute` returns the
pair `("/", empty-params)` — the root node's stored path, a template that
was never registered — instead of the claimed explicit not-found result
`("", nil)`. -/
theorem getRoute_root_false_positive :
    (buildRouter ([((("GET").toList), ("/a/b").toList, [1])] : List (Str × Str × List Nat))).map
        (fun r => getRoute r (("GET").toList) (("/").toList))
      = some ((("/").toList), some []) ∧
    structMatch (parsePattern (("/a/b").toList)) (parsePattern (("/").toList)) = false ∧
    ((("/").toList : Str), (some [] : Option (List (Str × Str)))) ≠ (([] : Str), none) := by
  refine ⟨by decide, by decide, by decide⟩

/-- C4: at any node that already has a param child, inserting a segment
that is a (different) param segment — one that no existing child matches
literally — fails fatally: the embedded insertion returns `none`, the
model of `log.Panic`, which in the source fires before any node is linked,
so the trie is left unchanged. The second conjunct runs the whole
registration pipeline on `/a/:x` then `/a/:y` and shows it fails. -/
theorem insert_duplicate_param_sibling_fatal :
    (∀ (n : RadixNode) (done rest : List Str) (part : Str),
        n.hasParamChild = true → colonHead part = true → n.matchChild part = none →
        RadixNode.insertChild n done (part :: rest) = none) ∧
    (buildRouter ([((("GET").toList), ("/a/:x").toList, [1]),
                   ((("GET").toList), ("/a/:y").toList, [2])] :
        List (Str × Str × List Nat))).isNone = true := by
  constructor
  · intro n done rest part hp hc hm
    have hs : starHead part = false := colonHead_star_false hc
    unfold RadixNode.insertChild
    rw [hm]
    simp only [hs, hc, hp, Bool.not_false, Bool.true_and, Bool.and_true]
    cases h : n.hasAnyChild <;> simp [h]
  · decide

theorem insert_duplicate_param_sibling_fatal_witness :
    (RadixNode.node (("a").toList) (("/a").toList) false false
        [RadixNode.node ((":x").toList) (("/a/:x").toList) true false [] false false]
        true false).hasParamChild = true ∧
    colonHead ((":y").toList) = true ∧
    (RadixNode.node (("a").toList) (("/a").toList) false false
        [RadixNode.node ((":x").toList) (("/a/:x").toList) true false [] false false]
        true false).matchChild ((":y").toList) = none ∧
    RadixNode.insertChild
        (RadixNode.node (("a").toList) (("/a").toList) false false
          [RadixNode.node ((":x").toList) (("/a/:x").toList) true false [] false false]
          true false)
        [("a").toList] [(":y").toList] = none :=
  ⟨by decide, by decide, rfl,
    insert_duplicate_param_sibling_fatal.1 _ _ _ _ (by decide) (by decide) rfl⟩

/-- C5: inserting a wildcard segment (as the final segment of its
template) at a node with no literally-matching child behaves by the three
claimed cases: no children yet — the wildcard child is appended; an
existing wildcard child (`hasAnyChild`, in which case the child list is
the single wildcard that Go overwrites at index 0) — that child is
replaced; other existing children — the whole child list is discarded in
favour of the single wildcard child. Registration succeeds (a warning, not
an error). The second conjunct shows the claimed consequence: after
`/static/a`, `/static/b`, `/static/*file`, looking up `/static/a` and
`/static/b` yields template `/static/*file` with `file` bound to `a`
resp. `b`, so the two static templates are no longer matchable. -/
theorem insert_wildcard_absorption :
    (∀ (n : RadixNode) (done : List Str) (part : Str),
        starHead part = true → n.matchChild part = none →
        RadixNode.insertChild n done [part] =
          some (if n.children.isEmpty then
                  n.withKids (n.children ++
                      [RadixNode.node part (renderPath (done ++ [part])) false true [] false false])
                    n.hasParamChild true
                else if n.hasAnyChild then
                  n.withKids (n.children.set 0
                      (RadixNode.node part (renderPath (done ++ [part])) false true [] false false))
                    n.hasParamChild true
                else
                  n.withKids
                    [RadixNode.node part (renderPath (done ++ [part])) false true [] false false]
                    n.hasParamChild true)) ∧
    ((buildRouter ([((("GET").toList), ("/static/a").toList, [1]),
                    ((("GET").toList), ("/static/b").toList, [2]),
                    ((("GET").toList), ("/static/*file").toList, [3])] :
        List (Str × Str × List Nat))).map
        (fun r => getRoute r (("GET").toList) (("/static/a").toList))
      = some ((("/static/*file").toList), some [(("file").toList, ("a").toList)])) ∧
    ((buildRouter ([((("GET").toList), ("/static/a").toList, [1]),
                    ((("GET").toList), ("/static/b").toList, [2]),
                    ((("GET").toList), ("/static/*file").toList, [3])] :
        List (Str × Str × List Nat))).map
        (fun r => getRoute r (("GET").toList) (("/static/b").toList))
      = some ((("/static/*file").toList), some [(("file").toList, ("b").toList)])) := by
  refine ⟨?_, by decide, by decide⟩
  intro n done part hs hm
  have hc : colonHead part = false := starHead_colon_false hs
  unfold RadixNode.insertChild
  rw [hm]
  simp only [hs, hc, Bool.not_true, Bool.false_and, Bool.and_false, if_false,
    RadixNode.insertChild, Option.map_some]
  by_cases he : n.children.isEmpty
  · simp [he]
  · simp only [Bool.not_eq_true] at he
    simp only [he]
    cases ha : n.hasAnyChild <;> simp [he, ha]

theorem insert_wildcard_absorption_witness :
    starHead (("*w").toList) = true ∧
    (RadixNode.node (("s").toList) (("/s").toList) false false [] false
        false).matchChild (("*w").toList) = none ∧
    RadixNode.insertChild
        (RadixNode.node (("s").toList) (("/s").toList) false false [] false false)
        [("s").toList] [("*w").toList]
      = some ((RadixNode.node (("s").toList) (("/s").toList) false false [] false
          false).withKids
            [RadixNode.node (("*w").toList) (renderPath ([("s").toList] ++ [("*w").toList]))
              false true [] false false] false true) :=
  ⟨by decide, rfl, by
    have h := insert_wildcard_absorption.1
      (RadixNode.node (("s").toList) (("/s").toList) false false [] false false)
      [("s").toList] (("*w").toList) (by decide) rfl
    simpa using h⟩

/-- C2: the lookup's recursion satisfies exactly the spec's case analysis:
with no segments left (height = length) or at a node whose own literal
begins with `*`, the node itself is returned; otherwise the first
qualifying child (literal equal to the segment, param child, wildcard
child, or segment beginning with `*`) — and only that child — is descended
into, and its recursive answer, possibly `none`, is the final answer; no
second qualifying child is ever tried. The second and third conjuncts
demonstrate the consequent lack of backtracking on a concrete trie: with
`/a/b/c` and `/a/:x/d` registered, the path `/a/b/d` structurally matches
`/a/:x/d`, but lookup commits to the static `b` branch and returns the
not-found result. -/
theorem findChild_first_qualifying_no_backtracking :
    (∀ (n : RadixNode) (parts : List Str),
        n.findChild parts =
          if parts.isEmpty ∨ starHead n.pattern = true then some n
          else
            match n.children.find? (fun c => qualifiesFor c (parts.headD [])) with
            | none => none
            | some c => c.findChild parts.tail) ∧
    ((buildRouter ([((("GET").toList), ("/a/b/c").toList, [1]),
                    ((("GET").toList), ("/a/:x/d").toList, [2])] :
        List (Str × Str × List Nat))).map
        (fun r => getRoute r (("GET").toList) (("/a/b/d").toList)) = some ([], none)) ∧
    structMatch (parsePattern (("/a/:x/d").toList)) (parsePattern (("/a/b/d").toList)) = true := by
  refine ⟨?_, by decide, by decide⟩
  intro n parts
  cases parts with
  | nil => simp [RadixNode.findChild]
  | cons part rest =>
    simp only [List.isEmpty_cons, false_or, List.headD_cons, List.tail_cons]
    by_cases hs : starHead n.pattern = true
    · simp [RadixNode.findChild, hs]
    · simp only [Bool.not_eq_true] at hs
      simp only [RadixNode.findChild, hs, Bool.false_eq_true, if_false]
      have : n.matchChildren part = n.children.filter (fun c => qualifiesFor c part) := rfl
      rw [this]
      rw [← head_filter_eq_find]
      cases hf : n.children.filter (fun c => qualifiesFor c part) with
      | nil => rfl
      | cons c cs => rfl

/-- C10: route keys are `method + "-" + pattern` and `allRoutes` recovers
the pair by splitting on every hyphen and keeping the first and last
pieces. The recovery is exact whenever method and pattern are hyphen-free
(first conjunct); for the pattern `/foo-bar` it instead produces `bar`
(second and third conjuncts), and consequently engine-level middleware
application — which feeds `allRoutes` output back into the handler table —
silently skips that route: a group middleware whose base path `/foo` is a
prefix of `/foo-bar` is never prepended (fourth and fifth conjuncts). -/
theorem allRoutes_faithful_only_hyphen_free :
    (∀ m p : Str, '-' ∉ m → '-' ∉ p → routeInfoOf (routeKey m p) = (m, p)) ∧
    routeInfoOf (routeKey (("GET").toList) (("/foo-bar").toList))
      = ((("GET").toList), ("bar").toList) ∧
    (("bar").toList : Str) ≠ ("/foo-bar").toList ∧
    ((buildRouter ([((("GET").toList), ("/foo-bar").toList, [1])] :
        List (Str × Str × List Nat))).map
        (fun r => lookupA (routeKey (("GET").toList) (("/foo-bar").toList))
          (applyMiddlewareAll ⟨[(([] : Str), ([] : List Nat)), ((("/foo").toList), [99])]⟩
            r).handlers)
      = some (some [1])) ∧
    ((("/foo").toList : Str).isPrefixOf (("/foo-bar").toList) = true) :=
  ⟨fun _ _ hm hp => routeInfo_routeKey hm hp, by decide, by decide, by decide, by decide⟩

theorem allRoutes_faithful_only_hyphen_free_witness :
    ('-' ∉ (("GET").toList : Str)) ∧ ('-' ∉ (("/ping").toList : Str)) ∧
    routeInfoOf (routeKey (("GET").toList) (("/ping").toList))
      = ((("GET").toList), ("/ping").toList) :=
  ⟨by decide, by decide,
    allRoutes_faithful_only_hyphen_free.1 _ _ (by decide) (by decide)⟩

theorem applyMiddlewareE_lookup_ne {α : Type} (e : EngineT α) (acc : RouterT α)
    (m p k : Str) (h : routeKey m p ≠ k) :
    lookupA k (applyMiddlewareE e acc m p).handlers = lookupA k acc.handlers := by
  unfold applyMiddlewareE applyMiddlewares
  cases hl : lookupA (routeKey m p) acc.handlers with
  | none => rfl
  | some old => exact lookupA_updateA_ne h _ _

theorem applyMiddlewareE_lookup_self {α : Type} (e : EngineT α) (acc : RouterT α)
    (m p : Str) (old : List α) (h : lookupA (routeKey m p) acc.handlers = some old) :
    lookupA (routeKey m p) (applyMiddlewareE e acc m p).handlers
      = some (chainFor e p ++ old) := by
  unfold applyMiddlewareE applyMiddlewares
  rw [h]
  exact lookupA_updateA_self _ _ _

theorem foldl_apply_lookup_ne {α : Type} (e : EngineT α) :
    ∀ (ros : List (Str × Str)) (acc : RouterT α) (k : Str),
      (∀ ro ∈ ros, routeKey ro.1 ro.2 ≠ k) →
      lookupA k ((ros.foldl (fun a ro => applyMiddlewareE e a ro.1 ro.2) acc).handlers)
        = lookupA k acc.handlers := by
  intro ros
  induction ros with
  | nil => intro acc k _; rfl
  | cons ro rest ih =>
    intro acc k h
    rw [List.foldl_cons]
    rw [ih _ k (fun x hx => h x (List.mem_cons_of_mem _ hx))]
    exact applyMiddlewareE_lookup_ne e acc ro.1 ro.2 k (h ro (List.mem_cons_self _ _))

/-- Engine-level middleware application, for a registered route whose
method and pattern are hyphen-free in a table of hyphen-free keys:
the stored chain afterwards is the concatenated middleware lists of all
groups whose base path is a prefix of the pattern, followed by the
original chain. -/
theorem applyMiddlewareAll_lookup {α : Type} (e : EngineT α) (r : RouterT α)
    (method pattern : Str) (old : List α)
    (hm : '-' ∉ method) (hp : '-' ∉ pattern)
    (hn : (r.handlers.map Prod.fst).Nodup)
    (hk : ∀ kv ∈ r.handlers, ∃ m q, kv.1 = routeKey m q ∧ '-' ∉ m ∧ '-' ∉ q)
    (hmem : (routeKey method pattern, old) ∈ r.handlers) :
    lookupA (routeKey method pattern) (applyMiddlewareAll e r).handlers
      = some (chainFor e pattern ++ old) := by
  obtain ⟨l1, l2, hsplit⟩ := List.append_of_mem hmem
  have hmap : allRoutes r
      = l1.map (fun kv => routeInfoOf kv.1)
        ++ ((method, pattern) :: l2.map (fun kv => routeInfoOf kv.1)) := by
    unfold allRoutes
    rw [hsplit, List.map_append, List.map_cons]
    congr 2
    exact routeInfo_routeKey hm hp
  have hnodup2 := hn
  rw [hsplit, List.map_append, List.map_cons, List.nodup_append] at hnodup2
  obtain ⟨hnd1, hnd2, hdisj⟩ := hnodup2
  have hkey_not_l2 : routeKey method pattern ∉ l2.map Prod.fst :=
    (List.nodup_cons.mp hnd2).1
  have hkey_not_l1 : routeKey method pattern ∉ l1.map Prod.fst := by
    intro hin
    exact (hdisj hin) (List.mem_cons_self _ _)
  have hl1 : ∀ ro ∈ l1.map (fun kv => routeInfoOf kv.1),
      routeKey ro.1 ro.2 ≠ routeKey method pattern := by
    intro ro hro
    obtain ⟨kv, hkv, hro'⟩ := List.mem_map.mp hro
    obtain ⟨m, q, hkeyq, hm', hq'⟩ := hk kv (by
      rw [hsplit]; exact List.mem_append_left _ hkv)
    rw [← hro', hkeyq, routeInfo_routeKey hm' hq']
    intro he
    apply hkey_not_l1
    rw [← he, ← hkeyq]
    exact List.mem_map.mpr ⟨kv, hkv, rfl⟩
  have hl2 : ∀ ro ∈ l2.map (fun kv => routeInfoOf kv.1),
      routeKey ro.1 ro.2 ≠ routeKey method pattern := by
    intro ro hro
    obtain ⟨kv, hkv, hro'⟩ := List.mem_map.mp hro
    obtain ⟨m, q, hkeyq, hm', hq'⟩ := hk kv (by
      rw [hsplit]
      exact List.mem_append_right _ (List.mem_cons_of_mem _ hkv))
    rw [← hro', hkeyq, routeInfo_routeKey hm' hq']
    intro he
    apply hkey_not_l2
    rw [← he, ← hkeyq]
    exact List.mem_map.mpr ⟨kv, hkv, rfl⟩
  show lookupA (routeKey method pattern)
      ((allRoutes r).foldl (fun a ro => applyMiddlewareE e a ro.1 ro.2) r).handlers = _
  rw [hmap, List.foldl_append, List.foldl_cons]
  rw [foldl_apply_lookup_ne e _ _ _ hl2]
  apply applyMiddlewareE_lookup_self
  rw [foldl_apply_lookup_ne e _ _ _ hl1]
  exact lookupA_mem_nodup hn hmem

/-- C7 counterexample: a route whose template contains a hyphen is
silently skipped by engine-level middleware application. With
`GET /v1/foo-bar` registered and middleware `99` attached to the group
with base path `/v1` — a string prefix of the template — the stored chain
after `ApplyMiddleware` is still `[1]`, not the claimed `[99, 1]`:
`allRoutes` mangles the stored key (`GET`, hyphen, `/v1/foo-bar`) into the
pattern `bar`, whose
own key is absent from the handler table, so nothing is prepended. -/
theorem middleware_prefix_hyphen_counterexample :
    ((buildRouter ([((("GET").toList), ("/v1/foo-bar").toList, [1])] :
        List (Str × Str × List Nat))).map
        (fun r => lookupA (routeKey (("GET").toList) (("/v1/foo-bar").toList))
          (applyMiddlewareAll ⟨[(([] : Str), ([] : List Nat)), ((("/v1").toList), [99])]⟩
            r).handlers)
      = some (some [1])) ∧
    ((("/v1").toList : Str).isPrefixOf (("/v1/foo-bar").toList) = true) ∧
    ([1] : List Nat) ≠ [99] ++ [1] :=
  ⟨by decide, by decide, by decide⟩

/-- C7 (amended): when engine-level middleware application runs once after
registration, then for every registered (method, template) pair whose
method and template are hyphen-free (in a table whose keys are all of that
shape), each group's middleware list is prepended to the stored chain
exactly when the template has the group's base path as a string prefix —
the new chain is the concatenation of the qualifying groups' middlewares
followed by the original handlers (first conjunct). Routes whose template
contains a hyphen can be skipped, see the counterexample. The remaining
conjuncts execute the claimed `/v1` instance: middleware `M` attached to
the `/v1` group runs before the `/v1/ping` handler, and never runs for
`/v2/ping`, whose chain is untouched. -/
theorem middleware_prefix_application :
    (∀ (α : Type) (e : EngineT α) (r : RouterT α) (method pattern : Str) (old : List α),
        '-' ∉ method → '-' ∉ pattern →
        (r.handlers.map Prod.fst).Nodup →
        (∀ kv ∈ r.handlers, ∃ m q, kv.1 = routeKey m q ∧ '-' ∉ m ∧ '-' ∉ q) →
        (routeKey method pattern, old) ∈ r.handlers →
        lookupA (routeKey method pattern) (applyMiddlewareAll e r).handlers
          = some (chainFor e pattern ++ old)) ∧
    ((buildRouter
        [((("GET").toList), ("/v1/ping").toList, [[Action.log (("ping1").toList)]]),
         ((("GET").toList), ("/v2/ping").toList, [[Action.log (("ping2").toList)]])]).map
        (fun r =>
          (serveHTTP 100
            (applyMiddlewareAll
              ⟨[(([] : Str), ([] : List HandlerA)),
                ((("/v1").toList), [[Action.log (("M").toList)]])]⟩ r)
            (("GET").toList) (("/v1/ping").toList)).map Ctx.trace)
      = some (some [("M").toList, ("ping1").toList])) ∧
    ((buildRouter
        [((("GET").toList), ("/v1/ping").toList, [[Action.log (("ping1").toList)]]),
         ((("GET").toList), ("/v2/ping").toList, [[Action.log (("ping2").toList)]])]).map
        (fun r =>
          (serveHTTP 100
            (applyMiddlewareAll
              ⟨[(([] : Str), ([] : List HandlerA)),
                ((("/v1").toList), [[Action.log (("M").toList)]])]⟩ r)
            (("GET").toList) (("/v2/ping").toList)).map Ctx.trace)
      = some (some [("ping2").toList])) :=
  ⟨fun _ e r method pattern old hm hp hn hk hmem =>
      applyMiddlewareAll_lookup e r method pattern old hm hp hn hk hmem,
    by decide, by decide⟩

theorem middleware_prefix_application_witness :
    ('-' ∉ (("GET").toList : Str)) ∧ ('-' ∉ (("/p").toList : Str)) ∧
    (((⟨[], [(routeKey (("GET").toList) (("/p").toList), [5])]⟩ :
        RouterT Nat).handlers.map Prod.fst).Nodup) ∧
    (∀ kv ∈ (⟨[], [(routeKey (("GET").toList) (("/p").toList), [5])]⟩ :
        RouterT Nat).handlers, ∃ m q, kv.1 = routeKey m q ∧ '-' ∉ m ∧ '-' ∉ q) ∧
    ((routeKey (("GET").toList) (("/p").toList), [5]) ∈
      (⟨[], [(routeKey (("GET").toList) (("/p").toList), [5])]⟩ : RouterT Nat).handlers) ∧
    lookupA (routeKey (("GET").toList) (("/p").toList))
        (applyMiddlewareAll (⟨[((("/").toList), [7])]⟩ : EngineT Nat)
          ⟨[], [(routeKey (("GET").toList) (("/p").toList), [5])]⟩).handlers
      = some (chainFor (⟨[((("/").toList), [7])]⟩ : EngineT Nat) (("/p").toList) ++ [5]) := by
  refine ⟨by decide, by decide, by decide, ?_, by decide, ?_⟩
  · intro kv hkv
    simp only [List.mem_singleton] at hkv
    subst hkv
    exact ⟨(("GET").toList), (("/p").toList), rfl, by decide, by decide⟩
  · exact middleware_prefix_application.1 Nat _ _ _ _ _ (by decide) (by decide) (by decide)
      (by
        intro kv hkv
        simp only [List.mem_singleton] at hkv
        subst hkv
        exact ⟨(("GET").toList), (("/p").toList), rfl, by decide, by decide⟩)
      (by decide)

theorem withKids_pattern (n : RadixNode) (cs : List RadixNode) (hp ha : Bool) :
    (n.withKids cs hp ha).pattern = n.pattern := by
  cases n; rfl

theorem withKids_isParam (n : RadixNode) (cs : List RadixNode) (hp ha : Bool) :
    (n.withKids cs hp ha).isParam = n.isParam := by
  cases n; rfl

theorem withKids_isAny (n : RadixNode) (cs : List RadixNode) (hp ha : Bool) :
    (n.withKids cs hp ha).isAny = n.isAny := by
  cases n; rfl

theorem withKids_children (n : RadixNode) (cs : List RadixNode) (hp ha : Bool) :
    (n.withKids cs hp ha).children = cs := by
  cases n; rfl

theorem withKids_hasAnyChild (n : RadixNode) (cs : List RadixNode) (hp ha : Bool) :
    (n.withKids cs hp ha).hasAnyChild = ha := by
  cases n; rfl

theorem withKids_hasParamChild (n : RadixNode) (cs : List RadixNode) (hp ha : Bool) :
    (n.withKids cs hp ha).hasParamChild = hp := by
  cases n; rfl

/-- A successful insertion either leaves the node untouched or only
rewires its children and child flags. -/
theorem insertChild_shape {n : RadixNode} {done rest : List Str} {n' : RadixNode}
    (h : RadixNode.insertChild n done rest = some n') :
    n' = n ∨ ∃ cs hp ha, n' = n.withKids cs hp ha := by
  cases rest with
  | nil =>
    left
    simpa [RadixNode.insertChild] using h.symm
  | cons part rest' =>
    right
    simp only [RadixNode.insertChild] at h
    cases hmc : n.matchChild part with
    | some c =>
      rw [hmc] at h
      obtain ⟨c', _, hfa⟩ := Option.map_eq_some'.mp h
      exact ⟨_, _, _, hfa.symm⟩
    | none =>
      rw [hmc] at h
      by_cases h1 : (!starHead part && n.hasAnyChild) = true
      · rw [if_pos h1] at h; cases h
      · rw [if_neg h1] at h
        by_cases h2 : (colonHead part && n.hasParamChild) = true
        · rw [if_pos h2] at h; cases h
        · rw [if_neg h2] at h
          obtain ⟨c', _, hfa⟩ := Option.map_eq_some'.mp h
          rw [← hfa]
          by_cases hc : colonHead part = true
          · simp only [hc, if_true]
            exact ⟨_, _, _, rfl⟩
          · simp only [hc, if_false]
            by_cases hst : starHead part = true
            · simp only [hst, if_true]
              by_cases he : (!n.children.isEmpty) = true
              · simp only [he, if_true]
                by_cases ha : n.hasAnyChild = true
                · simp only [ha, if_true]; exact ⟨_, _, _, rfl⟩
                · simp only [ha, if_false]; exact ⟨_, _, _, rfl⟩
              · simp only [he, if_false]; exact ⟨_, _, _, rfl⟩
            · simp only [hst, if_false]
              exact ⟨_, _, _, rfl⟩

/-- Insertion never changes the node's own pattern or kind flags. -/
theorem insertChild_preserves {n : RadixNode} {done rest : List Str} {n' : RadixNode}
    (h : RadixNode.insertChild n done rest = some n') :
    n'.pattern = n.pattern ∧ n'.isParam = n.isParam ∧ n'.isAny = n.isAny := by
  rcases insertChild_shape h with rfl | ⟨cs, hp, ha, rfl⟩
  · exact ⟨rfl, rfl, rfl⟩
  · exact ⟨withKids_pattern .., withKids_isParam .., withKids_isAny ..⟩

theorem replaceChild_mem {part : Str} {c' : RadixNode} :
    ∀ {l : List RadixNode} {x : RadixNode}, x ∈ replaceChild part c' l →
      x ∈ l ∨ (x = c' ∧ ∃ y ∈ l, (y.pattern == part) = true) := by
  intro l
  induction l with
  | nil => intro x hx; simp [replaceChild] at hx
  | cons c0 cs ih =>
    intro x hx
    by_cases h0 : (c0.pattern == part) = true
    · simp only [replaceChild, if_pos h0] at hx
      rcases List.mem_cons.mp hx with rfl | hx'
      · exact Or.inr ⟨rfl, c0, List.mem_cons_self _ _, h0⟩
      · exact Or.inl (List.mem_cons_of_mem _ hx')
    · simp only [replaceChild, if_neg h0] at hx
      rcases List.mem_cons.mp hx with rfl | hx'
      · exact Or.inl (List.mem_cons_self _ _)
      · rcases ih hx' with h | ⟨rfl, y, hy, hyp'⟩
        · exact Or.inl (List.mem_cons_of_mem _ h)
        · exact Or.inr ⟨rfl, y, List.mem_cons_of_mem _ hy, hyp'⟩

theorem STB_replaceChild {part : Str} {c' : RadixNode} :
    ∀ {l : List RadixNode}, STB l →
      (∀ x, l.find? (fun y => y.pattern == part) = some x →
        (StaticNode c' ↔ StaticNode x)) →
      STB (replaceChild part c' l) := by
  intro l
  induction l with
  | nil => intro _ _; exact List.Pairwise.nil
  | cons c0 cs ih =>
    intro hstb hiff
    obtain ⟨hhead, htail⟩ := List.pairwise_cons.mp hstb
    by_cases h0 : (c0.pattern == part) = true
    · simp only [replaceChild, if_pos h0]
      refine List.pairwise_cons.mpr ⟨?_, htail⟩
      intro b hb hsb
      have hif := hiff c0 (List.find?_cons_of_pos _ h0)
      exact hif.mpr (hhead b hb hsb)
    · simp only [replaceChild, if_neg h0]
      refine List.pairwise_cons.mpr ⟨?_, ?_⟩
      · intro b hb hsb
        rcases replaceChild_mem hb with hbm | ⟨rfl, y, hy, hyp'⟩
        · exact hhead b hbm hsb
        · have hsome : (cs.find? (fun y => y.pattern == part)).isSome :=
            List.find?_isSome.mpr ⟨y, hy, hyp'⟩
          obtain ⟨y0, hy0⟩ := Option.isSome_iff_exists.mp hsome
          have hif := hiff y0 (by
            rw [List.find?_cons_of_neg _ (by simp [h0])]
            exact hy0)
          exact hhead y0 (List.mem_of_find?_eq_some hy0) (hif.mp hsb)
      · exact ih htail (fun x hx => hiff x (by
          rw [List.find?_cons_of_neg _ (by simp [h0])]
          exact hx))

theorem STB_of_all_nonstatic :
    ∀ {l : List RadixNode}, (∀ b ∈ l, ¬ StaticNode b) → STB l := by
  intro l
  induction l with
  | nil => intro _; exact List.Pairwise.nil
  | cons c0 cs ih =>
    intro h
    refine List.pairwise_cons.mpr ⟨?_, ih (fun b hb => h b (List.mem_cons_of_mem _ hb))⟩
    intro b hb hsb
    exact absurd hsb (h b (List.mem_cons_of_mem _ hb))

theorem STB_append_nonstatic {l : List RadixNode} {c : RadixNode}
    (h : STB l) (hc : ¬ StaticNode c) : STB (l ++ [c]) := by
  refine List.pairwise_append.mpr ⟨h, List.pairwise_singleton _ _, ?_⟩
  intro a _ b hb
  rcases List.mem_singleton.mp hb with rfl
  intro hsb
  exact absurd hsb hc

theorem STB_cons_static {l : List RadixNode} {c : RadixNode}
    (h : STB l) (hc : StaticNode c) : STB (c :: l) :=
  List.pairwise_cons.mpr ⟨fun _ _ _ => hc, h⟩

theorem reach_refl_of_no_children {m n : RadixNode} (h : Reach m n)
    (hn : n.children = []) : m = n := by
  cases h with
  | refl => rfl
  | step hc _ => rw [hn] at hc; cases hc

theorem goodTree_child {n c : RadixNode} (h : GoodTree n) (hc : c ∈ n.children) :
    GoodTree c :=
  fun m hm => h m (.step hc hm)

theorem goodTree_node {n : RadixNode} (h : GoodTree n) : GoodNode n :=
  h n (.refl n)

theorem goodTree_of {n : RadixNode} (hself : GoodNode n)
    (hkids : ∀ c ∈ n.children, GoodTree c) : GoodTree n := by
  intro m hm
  cases hm with
  | refl => exact hself
  | step hc hm' => exact hkids _ hc m hm'

/-- Insertion preserves the ordering invariant on every node of the tree:
static children are prepended, param and wildcard children appended, and
wildcard absorption only ever leaves non-static children behind. -/
theorem insert_preserves_goodTree :
    ∀ (rest done : List Str) (n n' : RadixNode),
      GoodTree n → RadixNode.insertChild n done rest = some n' → GoodTree n' := by
  intro rest
  induction rest with
  | nil =>
    intro done n n' hg h
    simp only [RadixNode.insertChild, Option.some.injEq] at h
    rw [← h]
    exact hg
  | cons part rest' ih =>
    intro done n n' hg h
    simp only [RadixNode.insertChild] at h
    cases hmc : n.matchChild part with
    | some c =>
      rw [hmc] at h
      obtain ⟨c', hrec, hfa⟩ := Option.map_eq_some'.mp h
      have hmc' : n.children.find? (fun child => child.pattern == part) = some c := hmc
      have hcm : c ∈ n.children := List.mem_of_find?_eq_some hmc'
      have hcp0 := List.find?_some hmc'
      have hcp : (c.pattern == part) = true := hcp0
      have hgc' : GoodTree c' := ih _ _ _ (goodTree_child hg hcm) hrec
      have hpres := insertChild_preserves hrec
      have hiffc : StaticNode c' ↔ StaticNode c := by
        unfold StaticNode
        rw [hpres.2.1, hpres.2.2]
      rw [← hfa]
      apply goodTree_of
      · constructor
        · rw [withKids_children]
          apply STB_replaceChild (goodTree_node hg).1
          intro x hx
          have : some c = some x := hmc ▸ hx
          cases this
          exact hiffc
        · rw [withKids_hasAnyChild, withKids_children]
          intro hha x hxm
          rcases replaceChild_mem hxm with hxm' | ⟨rfl, _, _, _⟩
          · exact (goodTree_node hg).2 hha x hxm'
          · intro hsx
            exact (goodTree_node hg).2 hha c hcm (hiffc.mp hsx)
      · intro x hx
        rw [withKids_children] at hx
        rcases replaceChild_mem hx with hxm | ⟨rfl, _, _, _⟩
        · exact goodTree_child hg hxm
        · exact hgc'
    | none =>
      rw [hmc] at h
      by_cases h1 : (!starHead part && n.hasAnyChild) = true
      · rw [if_pos h1] at h; cases h
      · rw [if_neg h1] at h
        by_cases h2 : (colonHead part && n.hasParamChild) = true
        · rw [if_pos h2] at h; cases h
        · rw [if_neg h2] at h
          obtain ⟨c', hrec, hfa⟩ := Option.map_eq_some'.mp h
          have hgchild : GoodTree (RadixNode.node part (renderPath (done ++ [part]))
              (colonHead part) (starHead part) [] false false) := by
            apply goodTree_of
            · exact ⟨List.Pairwise.nil, fun hh => Bool.noConfusion hh⟩
            · intro c hc
              exact absurd hc (List.not_mem_nil c)
          have hgc' : GoodTree c' := ih _ _ _ hgchild hrec
          have hpres := insertChild_preserves hrec
          have hcp' : c'.isParam = colonHead part := by
            have := hpres.2.1
            simpa [RadixNode.isParam] using this
          have hca' : c'.isAny = starHead part := by
            have := hpres.2.2
            simpa [RadixNode.isAny] using this
          by_cases hc : colonHead part = true
          · rw [if_pos hc] at hfa
            rw [← hfa]
            have hstar : starHead part = false := colonHead_star_false hc
            have hha : n.hasAnyChild = false := by
              cases hAB : n.hasAnyChild
              · rfl
              · exact absurd (by simp [hstar, hAB]) h1
            have hnsc' : ¬ StaticNode c' := by
              intro hs
              have hs1 := hs.1
              rw [hcp', hc] at hs1
              exact Bool.noConfusion hs1
            apply goodTree_of
            · constructor
              · rw [withKids_children]
                exact STB_append_nonstatic (goodTree_node hg).1 hnsc'
              · rw [withKids_hasAnyChild, hha]
                intro hcontra
                exact Bool.noConfusion hcontra
            · intro x hx
              rw [withKids_children] at hx
              rcases List.mem_append.mp hx with hxm | hxc
              · exact goodTree_child hg hxm
              · rw [List.mem_singleton.mp hxc]
                exact hgc'
          · rw [if_neg hc] at hfa
            by_cases hst : starHead part = true
            · rw [if_pos hst] at hfa
              have hnsc' : ¬ StaticNode c' := by
                intro hs
                have hs2 := hs.2
                rw [hca', hst] at hs2
                exact Bool.noConfusion hs2
              by_cases he : (!n.children.isEmpty) = true
              · rw [if_pos he] at hfa
                by_cases hAB : n.hasAnyChild = true
                · rw [if_pos hAB] at hfa
                  rw [← hfa]
                  have hall := (goodTree_node hg).2 hAB
                  apply goodTree_of
                  · constructor
                    · rw [withKids_children]
                      apply STB_of_all_nonstatic
                      intro b hb
                      rcases List.mem_or_eq_of_mem_set hb with hbm | rfl
                      · exact hall b hbm
                      · exact hnsc'
                    · rw [withKids_hasAnyChild, withKids_children]
                      intro _ b hb
                      rcases List.mem_or_eq_of_mem_set hb with hbm | rfl
                      · exact hall b hbm
                      · exact hnsc'
                  · intro x hx
                    rw [withKids_children] at hx
                    rcases List.mem_or_eq_of_mem_set hx with hxm | rfl
                    · exact goodTree_child hg hxm
                    · exact hgc'
                · rw [if_neg hAB] at hfa
                  rw [← hfa]
                  apply goodTree_of
                  · constructor
                    · rw [withKids_children]
                      exact STB_of_all_nonstatic (fun b hb => by
                        rw [List.mem_singleton.mp hb]
                        exact hnsc')
                    · rw [withKids_hasAnyChild, withKids_children]
                      intro _ b hb
                      rw [List.mem_singleton.mp hb]
                      exact hnsc'
                  · intro x hx
                    rw [withKids_children] at hx
                    rw [List.mem_singleton.mp hx]
                    exact hgc'
              · rw [if_neg he] at hfa
                rw [← hfa]
                have hnil : n.children = [] := by
                  have hE : n.children.isEmpty = true := by
                    cases hE2 : n.children.isEmpty
                    · rw [hE2] at he
                      exact absurd rfl he
                    · rfl
                  exact List.isEmpty_iff.mp hE
                apply goodTree_of
                · constructor
                  · rw [withKids_children, hnil]
                    exact STB_of_all_nonstatic (fun b hb => by
                      rw [List.mem_singleton.mp hb]
                      exact hnsc')
                  · rw [withKids_hasAnyChild, withKids_children, hnil]
                    intro _ b hb
                    rw [List.mem_singleton.mp hb]
                    exact hnsc'
                · intro x hx
                  rw [withKids_children, hnil] at hx
                  rw [List.mem_singleton.mp hx]
                  exact hgc'
            · rw [if_neg hst] at hfa
              rw [← hfa]
              have hstarf : starHead part = false := by
                cases hq : starHead part
                · rfl
                · exact absurd hq hst
              have hsc' : StaticNode c' := by
                constructor
                · rw [hcp']
                  cases hcc : colonHead part
                  · rfl
                  · exact absurd hcc hc
                · rw [hca', hstarf]
              have hha : n.hasAnyChild = false := by
                cases hAB : n.hasAnyChild
                · rfl
                · exact absurd (by simp [hstarf, hAB]) h1
              apply goodTree_of
              · constructor
                · rw [withKids_children]
                  exact STB_cons_static (goodTree_node hg).1 hsc'
                · rw [withKids_hasAnyChild, hha]
                  intro hcontra
                  exact Bool.noConfusion hcontra
              · intro x hx
                rw [withKids_children] at hx
                rcases List.mem_cons.mp hx with rfl | hxm
                · exact hgc'
                · exact goodTree_child hg hxm

theorem lookupA_some_mem {β : Type} {k : Str} {v : β} {l : List (Str × β)}
    (h : lookupA k l = some v) : (k, v) ∈ l := by
  unfold lookupA at h
  obtain ⟨kv, hkv, hv⟩ := Option.map_eq_some'.mp h
  have h1' := List.find?_some hkv
  have h1 : (kv.1 == k) = true := h1'
  have h2 : kv.1 = k := by simpa using h1
  have : kv = (k, v) := by
    obtain ⟨a, b⟩ := kv
    simp only at hv h2
    rw [h2, hv]
  rw [← this]
  exact List.mem_of_find?_eq_some hkv

theorem newRootNode_good : GoodTree newRootNode := by
  apply goodTree_of
  · exact ⟨List.Pairwise.nil, fun hh => Bool.noConfusion hh⟩
  · intro c hc
    exact absurd hc (List.not_mem_nil c)

theorem addRoute_trees_good {α : Type} {r r' : RouterT α} {method pattern : Str}
    {hs : List α} (hg : ∀ kv ∈ r.trees, GoodTree kv.2)
    (h : addRoute r method pattern hs = some r') :
    ∀ kv ∈ r'.trees, GoodTree kv.2 := by
  unfold addRoute at h
  obtain ⟨root', hroot', hfa⟩ := Option.map_eq_some'.mp h
  have hbase : GoodTree (match lookupA method r.trees with
      | some t => t
      | none => newRootNode) := by
    cases hl : lookupA method r.trees with
    | none => exact newRootNode_good
    | some t => exact hg (method, t) (lookupA_some_mem hl)
  have hgr' : GoodTree root' :=
    insert_preserves_goodTree _ _ _ _ hbase hroot'
  intro kv hkv
  rw [← hfa] at hkv
  simp only at hkv
  rcases updateA_mem hkv with hkvm | rfl
  · exact hg kv hkvm
  · exact hgr'

theorem buildRouter_trees_good {α : Type} :
    ∀ (routes : List (Str × Str × List α)) (acc r : RouterT α),
      (∀ kv ∈ acc.trees, GoodTree kv.2) →
      routes.foldlM (fun r x => addRoute r x.1 x.2.1 x.2.2) acc = some r →
      ∀ kv ∈ r.trees, GoodTree kv.2 := by
  intro routes
  induction routes with
  | nil =>
    intro acc r hg h
    simp only [List.foldlM_nil] at h
    cases h
    exact hg
  | cons x rest ih =>
    intro acc r hg h
    simp only [List.foldlM_cons] at h
    cases hstep : addRoute acc x.1 x.2.1 x.2.2 with
    | none => rw [hstep] at h; cases h
    | some acc1 =>
      rw [hstep] at h
      exact ih acc1 r (addRoute_trees_good hg hstep) h

/-- In a child list satisfying the ordering invariant, if some static child
has exactly the looked-up literal, the first qualifying child is a static
child with that literal. -/
theorem first_qualifying_static {part : Str} (hsp : starHead part = false) :
    ∀ {l : List RadixNode},
      l.Pairwise (fun a b => StaticNode b → StaticNode a) →
      (∃ c ∈ l, StaticNode c ∧ c.pattern = part) →
      ∃ c', (l.filter
          (fun child => child.pattern == part || child.isParam || child.isAny ||
            starHead part)).head? = some c' ∧ StaticNode c' ∧ c'.pattern = part := by
  intro l
  induction l with
  | nil =>
    intro _ hex
    obtain ⟨c, hc, _⟩ := hex
    exact absurd hc (List.not_mem_nil c)
  | cons c0 cs ih =>
    intro hstb hex
    obtain ⟨hhead, htail⟩ := List.pairwise_cons.mp hstb
    by_cases hs0 : StaticNode c0
    · have hq0 : (c0.pattern == part || c0.isParam || c0.isAny || starHead part)
          = (c0.pattern == part) := by
        rw [hs0.1, hs0.2, hsp]
        simp
      by_cases hp0 : (c0.pattern == part) = true
      · refine ⟨c0, ?_, hs0, by simpa using hp0⟩
        rw [List.filter_cons, hq0, hp0]
        rfl
      · have hp0' : (c0.pattern == part) = false := by
          cases hq : (c0.pattern == part)
          · rfl
          · exact absurd hq hp0
        rw [List.filter_cons, hq0, hp0']
        simp only [Bool.false_eq_true, if_false]
        apply ih htail
        obtain ⟨c, hc, hcs, hcp⟩ := hex
        rcases List.mem_cons.mp hc with rfl | hc'
        · exact absurd (by simpa using hcp) hp0
        · exact ⟨c, hc', hcs, hcp⟩
    · exfalso
      obtain ⟨c, hc, hcs, hcp⟩ := hex
      rcases List.mem_cons.mp hc with rfl | hc'
      · exact hs0 hcs
      · exact hs0 (hhead c hc' hcs)

/-- C3: in every trie built by a sequence of successful registrations,
whenever a node has a static child whose literal equals the current
concrete token (in particular when a static and a param segment were
registered as siblings, in either order), lookup at that node descends
into that static child: the head of the qualifying-children list is a
static child with that literal, because static children are prepended on
insertion while param and wildcard children are appended. The final two
conjuncts run the claimed instance in both registration orders: with
`/users/:id` and `/users/admin` both registered, looking up `/users/admin`
returns `/users/admin`. -/
theorem static_over_param_precedence :
    (∀ (α : Type) (routes : List (Str × Str × List α)) (r : RouterT α) (method : Str)
        (root n : RadixNode) (part : Str) (rest : List Str),
        buildRouter routes = some r → (method, root) ∈ r.trees → Reach n root →
        starHead n.pattern = false → starHead part = false →
        (∃ c ∈ n.children, StaticNode c ∧ c.pattern = part) →
        ∃ c', (n.matchChildren part).head? = some c' ∧ StaticNode c' ∧
          c'.pattern = part ∧ n.findChild (part :: rest) = c'.findChild rest) ∧
    ((buildRouter ([((("GET").toList), ("/users/:id").toList, [1]),
                    ((("GET").toList), ("/users/admin").toList, [2])] :
        List (Str × Str × List Nat))).map
        (fun r => getRoute r (("GET").toList) (("/users/admin").toList))
      = some ((("/users/admin").toList), some [])) ∧
    ((buildRouter ([((("GET").toList), ("/users/admin").toList, [2]),
                    ((("GET").toList), ("/users/:id").toList, [1])] :
        List (Str × Str × List Nat))).map
        (fun r => getRoute r (("GET").toList) (("/users/admin").toList))
      = some ((("/users/admin").toList), some [])) := by
  refine ⟨?_, by decide, by decide⟩
  intro α routes r method root n part rest hbuild hmem hreach hsn hsp hex
  have hgood : GoodTree root :=
    buildRouter_trees_good routes (emptyRouter α) r
      (fun kv hkv => absurd hkv (List.not_mem_nil kv)) hbuild (method, root) hmem
  have hgn : GoodNode n := hgood n hreach
  obtain ⟨c', hhead, hcs, hcp⟩ := first_qualifying_static hsp hgn.1 hex
  refine ⟨c', hhead, hcs, hcp, ?_⟩
  have hmceq : n.matchChildren part = n.children.filter
      (fun child => child.pattern == part || child.isParam || child.isAny ||
        starHead part) := rfl
  cases hmcl : n.children.filter
      (fun child => child.pattern == part || child.isParam || child.isAny ||
        starHead part) with
  | nil =>
    rw [hmcl] at hhead
    cases hhead
  | cons d ds =>
    rw [hmcl] at hhead
    have hd : d = c' := by simpa using hhead
    subst hd
    simp only [RadixNode.findChild, hsn, Bool.false_eq_true, if_false, hmceq, hmcl]

theorem static_over_param_precedence_witness :
    (buildRouter ([((("GET").toList), ("/:id").toList, [1]),
        ((("GET").toList), ("/admin").toList, [2])] : List (Str × Str × List Nat))
      = some routerC3) ∧
    ((((("GET").toList : Str), rootC3)) ∈ routerC3.trees) ∧
    Reach rootC3 rootC3 ∧
    starHead rootC3.pattern = false ∧
    starHead (("admin").toList) = false ∧
    (∃ c ∈ rootC3.children, StaticNode c ∧ c.pattern = ("admin").toList) ∧
    (∃ c', (rootC3.matchChildren (("admin").toList)).head? = some c' ∧ StaticNode c' ∧
      c'.pattern = ("admin").toList ∧
      rootC3.findChild [("admin").toList] = c'.findChild []) := by
  refine ⟨rfl, List.Mem.head _, Reach.refl _, by decide, by decide,
    ⟨rootC3.children.headD newRootNode, List.Mem.head _, ⟨by decide, by decide⟩, by decide⟩,
    ?_⟩
  exact static_over_param_precedence.1 Nat
    ([((("GET").toList), ("/:id").toList, [1]),
      ((("GET").toList), ("/admin").toList, [2])] : List (Str × Str × List Nat))
    routerC3 (("GET").toList) rootC3 rootC3 (("admin").toList) [] rfl
    (List.Mem.head _) (Reach.refl _) (by decide) (by decide)
    ⟨rootC3.children.headD newRootNode, List.Mem.head _, ⟨by decide, by decide⟩, by decide⟩

theorem okSegs_collectParts : ∀ l : List Str, okSegs (collectParts l) = true := by
  intro l
  induction l with
  | nil => rfl
  | cons piece rest ih =>
    cases piece with
    | nil => exact ih
    | cons c cs =>
      by_cases hc : (c == '*') = true
      · simp [collectParts, hc, okSegs, starHead]
      · have hc' : (c == '*') = false := by
          cases hq : (c == '*')
          · rfl
          · exact absurd hq hc
        simp [collectParts, hc', okSegs, starHead, ih]

theorem mem_collectParts : ∀ {l : List Str} {s : Str}, s ∈ collectParts l → s ∈ l := by
  intro l
  induction l with
  | nil => intro s h; exact absurd h (List.not_mem_nil s)
  | cons piece rest ih =>
    intro s h
    cases piece with
    | nil => exact List.mem_cons_of_mem _ (ih h)
    | cons c cs =>
      by_cases hc : (c == '*') = true
      · simp only [collectParts, hc, if_true, List.mem_singleton] at h
        rw [h]
        exact List.mem_cons_self _ _
      · have hc' : (c == '*') = false := by
          cases hq : (c == '*')
          · rfl
          · exact absurd hq hc
        simp only [collectParts, hc', Bool.false_eq_true, if_false] at h
        rcases List.mem_cons.mp h with rfl | h'
        · exact List.mem_cons_self _ _
        · exact List.mem_cons_of_mem _ (ih h')

theorem splitOnChar_no_sep_mem {sep : Char} :
    ∀ {s piece : Str}, piece ∈ splitOnChar sep s → sep ∉ piece := by
  intro s
  induction s with
  | nil =>
    intro piece h
    simp only [splitOnChar, List.mem_singleton] at h
    rw [h]
    exact List.not_mem_nil sep
  | cons c cs ih =>
    intro piece h
    by_cases hc : (c == sep) = true
    · simp only [splitOnChar, hc, if_true] at h
      rcases List.mem_cons.mp h with rfl | h'
      · exact List.not_mem_nil sep
      · exact ih h'
    · have hc' : c ≠ sep := by
        intro he
        exact hc (by simp [he])
      simp only [splitOnChar, if_neg hc] at h
      cases hsp : splitOnChar sep cs with
      | nil =>
        rw [hsp] at h
        simp only [List.mem_singleton] at h
        rw [h]
        intro hm
        rcases List.mem_singleton.mp hm with rfl
        exact hc' rfl
      | cons p ps =>
        rw [hsp] at h
        rcases List.mem_cons.mp h with rfl | h'
        · intro hm
          rcases List.mem_cons.mp hm with rfl | hm'
          · exact hc' rfl
          · exact ih (hsp ▸ List.mem_cons_self p ps) hm'
        · exact ih (hsp ▸ List.mem_cons_of_mem _ h')

theorem parsePattern_ok (x : Str) : okSegs (parsePattern x) = true :=
  okSegs_collectParts _

theorem parsePattern_no_slash {x : Str} {s : Str} (h : s ∈ parsePattern x) :
    '/' ∉ s :=
  splitOnChar_no_sep_mem (mem_collectParts h)

theorem splitOnChar_joinSlash :
    ∀ {segs : List Str}, segs ≠ [] → (∀ s ∈ segs, '/' ∉ s) →
      splitOnChar '/' (joinSlash segs) = segs := by
  intro segs
  induction segs with
  | nil => intro h _; exact absurd rfl h
  | cons s rest ih =>
    intro _ hfree
    cases rest with
    | nil =>
      show splitOnChar '/' (joinSlash [s]) = [s]
      exact splitOnChar_no_sep (hfree s (List.mem_cons_self _ _))
    | cons s2 rest2 =>
      show splitOnChar '/' (s ++ '/' :: joinSlash (s2 :: rest2)) = _
      rw [splitOnChar_append_sep (hfree s (List.mem_cons_self _ _))]
      rw [ih (by simp) (fun x hx => hfree x (List.mem_cons_of_mem _ hx))]

theorem collectParts_of_ok :
    ∀ {segs : List Str}, okSegs segs = true → collectParts segs = segs := by
  intro segs
  induction segs with
  | nil => intro _; rfl
  | cons s rest ih =>
    intro hok
    cases s with
    | nil => simp [okSegs] at hok
    | cons c cs =>
      simp only [okSegs, Bool.and_eq_true, Bool.or_eq_true, Bool.not_eq_true'] at hok
      obtain ⟨⟨_, hstar⟩, hrest⟩ := hok
      by_cases hc : (c == '*') = true
      · have : rest.isEmpty = true := by
          rcases hstar with hs | hs
          · rw [starHead] at hs
            rw [hc] at hs
            exact Bool.noConfusion hs
          · exact hs
        have hrnil : rest = [] := List.isEmpty_iff.mp this
        subst hrnil
        simp [collectParts, hc]
      · have hc' : (c == '*') = false := by
          cases hq : (c == '*')
          · rfl
          · exact absurd hq hc
        simp [collectParts, hc', ih hrest]

theorem parsePattern_renderPath {segs : List Str} (hok : okSegs segs = true)
    (hfree : ∀ s ∈ segs, '/' ∉ s) :
    parsePattern (renderPath segs) = segs := by
  unfold parsePattern renderPath
  have h0 : splitOnChar '/' ('/' :: joinSlash segs)
      = [] :: splitOnChar '/' (joinSlash segs) := by
    simp [splitOnChar]
  rw [h0]
  show collectParts (splitOnChar '/' (joinSlash segs)) = segs
  cases segs with
  | nil => rfl
  | cons s rest =>
    rw [splitOnChar_joinSlash (by simp) hfree]
    exact collectParts_of_ok hok

theorem structMatch_length :
    ∀ {ts ps : List Str}, okSegs ts = true → structMatch ts ps = true →
      ts.length ≤ ps.length := by
  intro ts
  induction ts with
  | nil => intro ps _ _; simp
  | cons t ts' ih =>
    intro ps hok hsm
    simp only [okSegs, Bool.and_eq_true, Bool.or_eq_true, Bool.not_eq_true'] at hok
    obtain ⟨⟨_, hstar⟩, hrest⟩ := hok
    by_cases hst : starHead t = true
    · have hts' : ts' = [] := by
        rcases hstar with hs | hs
        · rw [hst] at hs
          exact Bool.noConfusion hs
        · exact List.isEmpty_iff.mp hs
      subst hts'
      simp only [structMatch, hst, if_true, Bool.not_eq_true'] at hsm
      cases ps with
      | nil => simp at hsm
      | cons p ps' => simp
    · cases ps with
      | nil => simp [structMatch, hst] at hsm
      | cons p ps' =>
        simp only [structMatch, hst, Bool.false_eq_true, if_false] at hsm
        simp only [Bool.and_eq_true] at hsm
        have := ih hrest hsm.2
        simpa using Nat.succ_le_succ this

/-- Inserting a parsed template into a node with no children always
succeeds and grafts exactly the single-branch chain `mkChain`. -/
theorem insertChild_fresh :
    ∀ (rest done : List Str) (pat pth : Str) (ip ia : Bool),
      RadixNode.insertChild (.node pat pth ip ia [] false false) done rest
        = some (.node pat pth ip ia (mkChain rest done)
            (headColon rest) (headStar rest)) := by
  intro rest
  induction rest with
  | nil => intro done pat pth ip ia; rfl
  | cons part rest' ih =>
    intro done pat pth ip ia
    have hmc : (RadixNode.node pat pth ip ia [] false false).matchChild part = none := rfl
    simp only [RadixNode.insertChild, hmc]
    have hg1 : ((!starHead part &&
        (RadixNode.node pat pth ip ia [] false false).hasAnyChild)) = false := by
      simp [RadixNode.hasAnyChild]
    have hg2 : ((colonHead part &&
        (RadixNode.node pat pth ip ia [] false false).hasParamChild)) = false := by
      simp [RadixNode.hasParamChild]
    rw [hg1, hg2]
    simp only [Bool.false_eq_true, if_false]
    rw [ih (done ++ [part]) part (renderPath (done ++ [part])) (colonHead part)
      (starHead part)]
    by_cases hc : colonHead part = true
    · have hs : starHead part = false := colonHead_star_false hc
      simp [hc, hs, mkChain, headColon, headStar, RadixNode.withKids,
        RadixNode.children, RadixNode.hasAnyChild, RadixNode.hasParamChild]
    · have hc' : colonHead part = false := by
        cases hq : colonHead part
        · rfl
        · exact absurd hq hc
      by_cases hst : starHead part = true
      · simp only [hc', hst, Bool.false_eq_true, if_false, if_true,
          RadixNode.children, RadixNode.hasAnyChild, RadixNode.hasParamChild,
          RadixNode.withKids, List.isEmpty_nil, Bool.not_false, List.nil_append]
        simp [mkChain, headColon, headStar, hc', hst]
      · have hst' : starHead part = false := by
          cases hq : starHead part
          · rfl
          · exact absurd hq hst
        simp [hc', hst', mkChain, headColon, headStar, RadixNode.withKids,
          RadixNode.children, RadixNode.hasAnyChild, RadixNode.hasParamChild]

/-- Lookup along a grafted chain: any structurally matching parsed path
reaches the node carrying the template's full stored path. -/
theorem findChain :
    ∀ (segs ps done : List Str) (n : RadixNode),
      n.children = mkChain segs done →
      starHead n.pattern = false →
      okSegs segs = true →
      structMatch segs ps = true →
      n.path = renderPath done →
      ∃ m, n.findChild ps = some m ∧ m.path = renderPath (done ++ segs) := by
  intro segs
  induction segs with
  | nil =>
    intro ps done n hch hsn hok hsm hp
    have hps : ps = [] := by
      simp only [structMatch] at hsm
      exact List.isEmpty_iff.mp hsm
    subst hps
    exact ⟨n, rfl, by simpa using hp⟩
  | cons s rest ih =>
    intro ps done n hch hsn hok hsm hp
    simp only [okSegs, Bool.and_eq_true, Bool.or_eq_true, Bool.not_eq_true'] at hok
    obtain ⟨⟨hne, hstar⟩, hrest⟩ := hok
    by_cases hst : starHead s = true
    · have hrnil : rest = [] := by
        rcases hstar with hx | hx
        · rw [hst] at hx
          exact Bool.noConfusion hx
        · exact List.isEmpty_iff.mp hx
      subst hrnil
      cases ps with
      | nil => simp [structMatch, hst] at hsm
      | cons p ps' =>
        refine ⟨RadixNode.node s (renderPath (done ++ [s])) (colonHead s) (starHead s)
            (mkChain [] (done ++ [s])) (headColon []) (headStar []), ?_, ?_⟩
        · have hq : n.matchChildren p = [RadixNode.node s (renderPath (done ++ [s]))
              (colonHead s) (starHead s) (mkChain [] (done ++ [s]))
              (headColon []) (headStar [])] := by
            show n.children.filter _ = _
            rw [hch]
            simp [mkChain, RadixNode.isAny, hst]
          show RadixNode.findChild n (p :: ps') = _
          simp only [RadixNode.findChild, hsn, Bool.false_eq_true, if_false, hq]
          cases ps' with
          | nil => rfl
          | cons q qs =>
            simp only [RadixNode.findChild, RadixNode.pattern, hst, if_true]
        · simp [RadixNode.path]
    · cases ps with
      | nil => simp [structMatch, hst] at hsm
      | cons p ps' =>
        simp only [structMatch, hst, Bool.false_eq_true, if_false,
          Bool.and_eq_true] at hsm
        obtain ⟨hcond, hsm'⟩ := hsm
        have hq : n.matchChildren p = [RadixNode.node s (renderPath (done ++ [s]))
            (colonHead s) (starHead s) (mkChain rest (done ++ [s]))
            (headColon rest) (headStar rest)] := by
          show n.children.filter _ = _
          rw [hch]
          have hpred : ((RadixNode.node s (renderPath (done ++ [s])) (colonHead s)
              (starHead s) (mkChain rest (done ++ [s]))
              (headColon rest) (headStar rest)).pattern == p ||
              (RadixNode.node s (renderPath (done ++ [s])) (colonHead s)
                (starHead s) (mkChain rest (done ++ [s]))
                (headColon rest) (headStar rest)).isParam ||
              (RadixNode.node s (renderPath (done ++ [s])) (colonHead s)
                (starHead s) (mkChain rest (done ++ [s]))
                (headColon rest) (headStar rest)).isAny ||
              starHead p) = true := by
            simp only [RadixNode.pattern, RadixNode.isParam, RadixNode.isAny]
            by_cases hcol : colonHead s = true
            · simp [hcol]
            · have hcol' : colonHead s = false := by
                cases hq2 : colonHead s
                · rfl
                · exact absurd hq2 hcol
              rw [hcol'] at hcond
              simp only [if_false, Bool.false_eq_true] at hcond
              simp [hcond]
          simp [mkChain, List.filter_cons, hpred]
        obtain ⟨m, hm, hmp⟩ := ih ps' (done ++ [s])
          (RadixNode.node s (renderPath (done ++ [s])) (colonHead s) (starHead s)
            (mkChain rest (done ++ [s])) (headColon rest) (headStar rest))
          rfl (by
            simp only [RadixNode.pattern]
            cases hq2 : starHead s
            · rfl
            · exact absurd hq2 hst)
          hrest hsm' rfl
        refine ⟨m, ?_, ?_⟩
        · show RadixNode.findChild n (p :: ps') = _
          simp only [RadixNode.findChild, hsn, Bool.false_eq_true, if_false, hq]
          exact hm
        · rw [hmp, List.append_assoc]
          rfl

theorem lookup_matchParamsAux :
    ∀ (tmpl ps : List Str) (acc : List (Str × Str)) (name v : Str),
      (paramNames tmpl).Nodup → tmpl.length ≤ ps.length →
      (lookupA name (matchParamsAux tmpl ps acc) = some v ↔
        (BindsAt tmpl ps name v ∨ (name ∉ paramNames tmpl ∧ lookupA name acc = some v))) := by
  intro tmpl
  induction tmpl with
  | nil =>
    intro ps acc name v _ _
    simp only [matchParamsAux]
    constructor
    · intro h
      right
      exact ⟨by simp [paramNames], h⟩
    · rintro (h | ⟨_, h⟩)
      · cases h
      · exact h
  | cons t ts ih =>
    intro ps acc name v hnd hlen
    cases ps with
    | nil => simp at hlen
    | cons p ps' =>
      have hlen' : ts.length ≤ ps'.length := by simpa using hlen
      by_cases hc : colonHead t = true
      · have hstar : starHead t = false := colonHead_star_false hc
        have hred : matchParamsAux (t :: ts) (p :: ps') acc
            = matchParamsAux ts ps' (updateA (t.drop 1) p acc) := by
          simp [matchParamsAux, hc, hstar]
        have hpn : paramNames (t :: ts) = t.drop 1 :: paramNames ts := by
          simp [paramNames, hc]
        rw [hpn] at hnd
        obtain ⟨hnotin, hnd'⟩ := List.nodup_cons.mp hnd
        rw [hred, ih ps' _ name v hnd' hlen']
        constructor
        · rintro (hb | ⟨hni, hlk⟩)
          · exact Or.inl (BindsAt.there hb)
          · by_cases hne : name = t.drop 1
            · subst hne
              rw [lookupA_updateA_self] at hlk
              cases hlk
              exact Or.inl (BindsAt.paramHere hc rfl)
            · rw [lookupA_updateA_ne (fun he => hne he.symm)] at hlk
              right
              refine ⟨?_, hlk⟩
              rw [hpn]
              intro hmem
              rcases List.mem_cons.mp hmem with he | hm
              · exact hne he
              · exact hni hm
        · rintro (hb | ⟨hni, hlk⟩)
          · cases hb with
            | paramHere hcx hname =>
              right
              refine ⟨fun hmem => hnotin (hname ▸ hmem), ?_⟩
              rw [← hname, lookupA_updateA_self]
            | wildHere hsx _ _ =>
              rw [hstar] at hsx
              exact Bool.noConfusion hsx
            | there hb' => exact Or.inl hb'
          · rw [hpn] at hni
            have hne : name ≠ t.drop 1 := fun he => hni (he ▸ List.mem_cons_self _ _)
            right
            refine ⟨fun hmem => hni (List.mem_cons_of_mem _ hmem), ?_⟩
            rw [lookupA_updateA_ne (fun he => hne he.symm)]
            exact hlk
      · have hc' : colonHead t = false := by
          cases hq : colonHead t
          · rfl
          · exact absurd hq hc
        by_cases hw : (starHead t && decide (1 < t.length)) = true
        · have hred : matchParamsAux (t :: ts) (p :: ps') acc
              = matchParamsAux ts ps' (updateA (t.drop 1) (joinSlash (p :: ps')) acc) := by
            simp only [matchParamsAux, hc', Bool.false_eq_true, if_false, hw, if_true]
            rfl
          have hpn : paramNames (t :: ts) = t.drop 1 :: paramNames ts := by
            simp [paramNames, hc', hw]
          rw [hpn] at hnd
          obtain ⟨hnotin, hnd'⟩ := List.nodup_cons.mp hnd
          have hw2 := hw
          rw [Bool.and_eq_true] at hw2
          obtain ⟨hst, hlt⟩ := hw2
          have hlt' : 1 < t.length := of_decide_eq_true hlt
          rw [hred, ih ps' _ name v hnd' hlen']
          constructor
          · rintro (hb | ⟨hni, hlk⟩)
            · exact Or.inl (BindsAt.there hb)
            · by_cases hne : name = t.drop 1
              · subst hne
                rw [lookupA_updateA_self] at hlk
                cases hlk
                exact Or.inl (BindsAt.wildHere hst hlt' rfl)
              · rw [lookupA_updateA_ne (fun he => hne he.symm)] at hlk
                right
                refine ⟨?_, hlk⟩
                rw [hpn]
                intro hmem
                rcases List.mem_cons.mp hmem with he | hm
                · exact hne he
                · exact hni hm
          · rintro (hb | ⟨hni, hlk⟩)
            · cases hb with
              | paramHere hcx hname =>
                rw [hc'] at hcx
                exact Bool.noConfusion hcx
              | wildHere hsx hlx hname =>
                right
                refine ⟨fun hmem => hnotin (hname ▸ hmem), ?_⟩
                rw [← hname, lookupA_updateA_self]
              | there hb' => exact Or.inl hb'
            · rw [hpn] at hni
              have hne : name ≠ t.drop 1 := fun he => hni (he ▸ List.mem_cons_self _ _)
              right
              refine ⟨fun hmem => hni (List.mem_cons_of_mem _ hmem), ?_⟩
              rw [lookupA_updateA_ne (fun he => hne he.symm)]
              exact hlk
        · have hw' : (starHead t && decide (1 < t.length)) = false := by
            cases hq : (starHead t && decide (1 < t.length))
            · rfl
            · exact absurd hq hw
          have hred : matchParamsAux (t :: ts) (p :: ps') acc
              = matchParamsAux ts ps' acc := by
            simp only [matchParamsAux, hc', Bool.false_eq_true, if_false, hw', if_false]
            rfl
          have hpn : paramNames (t :: ts) = paramNames ts := by
            simp [paramNames, hc', hw']
          rw [hpn] at hnd
          rw [hred, ih ps' _ name v hnd hlen']
          constructor
          · rintro (hb | ⟨hni, hlk⟩)
            · exact Or.inl (BindsAt.there hb)
            · exact Or.inr ⟨by rw [hpn]; exact hni, hlk⟩
          · rintro (hb | ⟨hni, hlk⟩)
            · cases hb with
              | paramHere hcx hname =>
                rw [hc'] at hcx
                exact Bool.noConfusion hcx
              | wildHere hsx hlx hname =>
                exfalso
                rw [hsx, decide_eq_true hlx] at hw'
                simp at hw'
              | there hb' => exact Or.inl hb'
            · rw [hpn] at hni
              exact Or.inr ⟨hni, hlk⟩

theorem lookup_matchParams {tmpl ps : List Str} {name v : Str}
    (hnd : (paramNames tmpl).Nodup) (hlen : tmpl.length ≤ ps.length) :
    (lookupA name (matchParams tmpl ps) = some v ↔ BindsAt tmpl ps name v) := by
  unfold matchParams
  rw [lookup_matchParamsAux tmpl ps [] name v hnd hlen]
  constructor
  · rintro (hb | ⟨_, hlk⟩)
    · exact hb
    · exact absurd hlk (by simp [lookupA])
  · intro hb
    exact Or.inl hb

/-- C1 counterexample: with the two templates `/users/:id` and
`/users/admin` both registered (a set accepted without fatal error), the
concrete path `/users/admin` structurally matches `/users/:id` — `admin`
is a `/`-free token — yet resolving it returns `/users/admin`, not the
matched-against template `/users/:id`: round-trip fails as soon as
templates overlap, because lookup descends into the first qualifying
child only. -/
theorem roundtrip_counterexample :
    structMatch (parsePattern (("/users/:id").toList))
        (parsePattern (("/users/admin").toList)) = true ∧
    ((buildRouter ([((("GET").toList), ("/users/:id").toList, [1]),
        ((("GET").toList), ("/users/admin").toList, [2])] :
        List (Str × Str × List Nat))).map
        (fun r => (getRoute r (("GET").toList) (("/users/admin").toList)).1)
      = some (("/users/admin").toList)) ∧
    (("/users/admin").toList : Str) ≠ ("/users/:id").toList :=
  ⟨by decide, by decide, by decide⟩

/-- C1 (amended): round-trip registration/lookup holds for a single
registered template. For every canonical template (one equal to the
rendering of its own parsed segments) registered alone under any method,
and every concrete path whose parsed segments structurally match it —
each `:x` segment standing for one token, a trailing `*x` segment for the
non-empty remaining suffix — registration succeeds and `getRoute` returns
exactly that template, with the parameter map binding each `:x` name to
its token and the wildcard name to the suffix joined with `/` (stated via
the claim-side `BindsAt` relation; the template's bound names are assumed
pairwise distinct so that the map is unambiguous). With overlapping
registered templates the property fails, see the counterexample. -/
theorem single_template_roundtrip (α : Type) (method pattern path : Str) (hs : List α)
    (hcanon : pattern = renderPath (parsePattern pattern))
    (hmatch : structMatch (parsePattern pattern) (parsePattern path) = true)
    (hnd : (paramNames (parsePattern pattern)).Nodup) :
    ∃ r, addRoute (emptyRouter α) method pattern hs = some r ∧
      (getRoute r method path).1 = pattern ∧
      ∃ params, (getRoute r method path).2 = some params ∧
        ∀ name v, lookupA name params = some v ↔
          BindsAt (parsePattern pattern) (parsePattern path) name v := by
  have hins := insertChild_fresh (parsePattern pattern) [] [] ['/'] false false
  refine ⟨⟨updateA method
      (RadixNode.node [] ['/'] false false (mkChain (parsePattern pattern) [])
        (headColon (parsePattern pattern)) (headStar (parsePattern pattern))) [],
      updateA (routeKey method pattern) hs []⟩, ?_, ?_⟩
  · show (nodeInsert newRootNode pattern).map _ = _
    rw [show nodeInsert newRootNode pattern
        = some (RadixNode.node [] ['/'] false false (mkChain (parsePattern pattern) [])
            (headColon (parsePattern pattern)) (headStar (parsePattern pattern)))
      from hins]
    rfl
  · have hlk : lookupA method (updateA method
        (RadixNode.node [] ['/'] false false (mkChain (parsePattern pattern) [])
          (headColon (parsePattern pattern)) (headStar (parsePattern pattern)))
        ([] : List (Str × RadixNode)))
        = some (RadixNode.node [] ['/'] false false (mkChain (parsePattern pattern) [])
            (headColon (parsePattern pattern)) (headStar (parsePattern pattern))) :=
      lookupA_updateA_self _ _ _
    obtain ⟨m, hm, hmp⟩ := findChain (parsePattern pattern) (parsePattern path) []
      (RadixNode.node [] ['/'] false false (mkChain (parsePattern pattern) [])
        (headColon (parsePattern pattern)) (headStar (parsePattern pattern)))
      rfl rfl (parsePattern_ok pattern) hmatch rfl
    have hregEq : nodeFind
        (RadixNode.node [] ['/'] false false (mkChain (parsePattern pattern) [])
          (headColon (parsePattern pattern)) (headStar (parsePattern pattern))) path
        = pattern := by
      unfold nodeFind RadixNode.find
      rw [hm]
      show m.path = pattern
      rw [hmp]
      simp only [List.nil_append]
      exact hcanon.symm
    have hne : pattern.isEmpty = false := by
      rw [hcanon]
      rfl
    have hgr : getRoute
        (RouterT.mk (updateA method
          (RadixNode.node [] ['/'] false false (mkChain (parsePattern pattern) [])
            (headColon (parsePattern pattern)) (headStar (parsePattern pattern))) [])
          (updateA (routeKey method pattern) hs [])) method path
        = (pattern, some (matchParams (parsePattern pattern) (parsePattern path))) := by
      unfold getRoute
      rw [show lookupA method (RouterT.mk (updateA method
          (RadixNode.node [] ['/'] false false (mkChain (parsePattern pattern) [])
            (headColon (parsePattern pattern)) (headStar (parsePattern pattern))) [])
          (updateA (routeKey method pattern) hs [])).trees
          = some (RadixNode.node [] ['/'] false false (mkChain (parsePattern pattern) [])
              (headColon (parsePattern pattern)) (headStar (parsePattern pattern)))
        from hlk]
      simp only [hregEq, hne, Bool.false_eq_true, if_false]
    rw [hgr]
    refine ⟨rfl, matchParams (parsePattern pattern) (parsePattern path), rfl, ?_⟩
    intro name v
    exact lookup_matchParams hnd (structMatch_length (parsePattern_ok pattern) hmatch)

theorem single_template_roundtrip_witness :
    ((("/users/:id").toList : Str) = renderPath (parsePattern (("/users/:id").toList))) ∧
    structMatch (parsePattern (("/users/:id").toList))
        (parsePattern (("/users/jo").toList)) = true ∧
    (paramNames (parsePattern (("/users/:id").toList))).Nodup ∧
    (∃ r, addRoute (emptyRouter Nat) (("GET").toList) (("/users/:id").toList) [7]
        = some r ∧
      (getRoute r (("GET").toList) (("/users/jo").toList)).1 = ("/users/:id").toList ∧
      ∃ params, (getRoute r (("GET").toList) (("/users/jo").toList)).2 = some params ∧
        ∀ name v, lookupA name params = some v ↔
          BindsAt (parsePattern (("/users/:id").toList))
            (parsePattern (("/users/jo").toList)) name v) :=
  ⟨by decide, by decide, by decide,
    single_template_roundtrip Nat (("GET").toList) (("/users/:id").toList)
      (("/users/jo").toList) [7] (by decide) (by decide) (by decide)⟩

end Umeshu
